import Mathlib

/-!
# dockerbeat: a shallow embedding of `dockerbeat.go`

The file embeds the five methods of `Dockerbeat` that carry behaviour
(`Config`, `Run`, `Stop`, `RunOneTime`, `exportContainerStats`) and proves
properties of them.

* Durations and instants are integers counting nanoseconds; `time.Duration` is
  a signed 64-bit integer, so arithmetic on it is wrapped by `toInt64`.
* A nil pointer is `none`.
* Goroutines are threads of a labelled transition system: a schedule (a list of
  thread identifiers) picks which thread takes the next atomic step.
* The docker client, the configuration reader and the clock are outside the
  program: their answers are parameters.
-/

namespace Beat

/-! ## Machine integers and time -/

/-- Two's complement wrap of an integer to the signed 64-bit range. -/
def toInt64 (x : Int) : Int := (x + 9223372036854775808) % 18446744073709551616 - 9223372036854775808

/-- Largest `time.Duration`. -/
def maxDuration : Int := 9223372036854775807

/-- Smallest `time.Duration`. -/
def minDuration : Int := -9223372036854775808

/-- The constant `time.Second`, in nanoseconds. -/
def Second : Int := 1000000000

/-- The method `Time.Sub` of the standard library: the difference `t - u` of two instants,
replaced by the largest or smallest duration when it does not fit. -/
def Time.Sub (t u : Int) : Int :=
  if t - u > maxDuration then maxDuration
  else if t - u < minDuration then minDuration
  else t - u

/-- The method `Duration.Nanoseconds`: the duration as an integer nanosecond count. -/
def Nanoseconds (d : Int) : Int := d

/-! ## Data model -/

/-- One entry of the container listing (`docker.APIContainers`). The program reads `ID`
only; the other fields are handed through to the event builders. -/
structure APIContainers where
  ID : String
  Image : String
  Names : List String
deriving DecidableEq, Repr

/-- Modelled from the spec: the type `NetworkData` is declared outside `dockerbeat.go`; the
data model gives the cumulative network counters, received and sent bytes, with the time
of capture. -/
structure NetworkData where
  time : Int
  rx : Nat
  tx : Nat
deriving DecidableEq, Repr

/-- Modelled from the spec: the type `BlkioStats` is declared outside `dockerbeat.go`; the
data model gives the cumulative block I/O counters, read and written bytes, with the time
of capture. -/
structure BlkioStats where
  time : Int
  reads : Nat
  writes : Nat
deriving DecidableEq, Repr

/-- One stats snapshot (`docker.Stats`): CPU usage, memory usage, the cumulative network
and block I/O counters and the time the snapshot was read. -/
structure Stats where
  read : Int
  cpu : Nat
  memory : Nat
  rx : Nat
  tx : Nat
  blkRead : Nat
  blkWrite : Nat
deriving DecidableEq, Repr

/-- A value of an event field: text or a number. -/
inductive Value where
  | str (s : String)
  | num (n : Int)
deriving DecidableEq, Repr

/-- An event record (`common.MapStr`): field names with their values. -/
abbrev MapStr := List (String × Value)

/-- The options of one stats request (`docker.StatsOptions`), as the positional literal of
`exportContainerStats` fills them: the container id, the streaming flag and the timeout.
The two channel fields are part of `Export` below. -/
structure StatsOptions where
  ID : String
  Stream : Bool
  Timeout : Int
deriving DecidableEq, Repr

/-- Modelled from the spec: the type `EventGenerator` is declared outside `dockerbeat.go`.
`Setup` builds it from two maps keyed by container id, of `NetworkData` and of
`BlkioStats`: the Counter Store of the network counters and of the block I/O counters. -/
structure EventGenerator where
  networkStats : List (String × NetworkData)
  blkioStats : List (String × BlkioStats)
deriving DecidableEq, Repr

/-- Modelled from the spec: the configuration types are declared outside `dockerbeat.go`.
`Config` reads two optional settings of the input section (nil when the configuration
file does not give them): the period, an integer that `Config` converts to a duration,
taken here as a 64-bit integer, and the socket address, a string. -/
structure DockerConfig where
  Period : Option Int
  Socket : Option String
deriving DecidableEq, Repr

/-- Modelled from the spec: the configuration record `ConfigSettings` is declared outside
`dockerbeat.go`; `Config` reads its input section only. -/
structure ConfigSettings where
  Input : DockerConfig
deriving DecidableEq, Repr

/-- The fields of `Dockerbeat` that are plain data. `done` tells whether the channel
`d.done` has been closed. -/
structure Dockerbeat where
  done : Bool
  period : Int
  socket : String
  TbConfig : ConfigSettings
  eventGenerator : EventGenerator
deriving DecidableEq, Repr

/-! ## `Config` and `Setup` -/

/-- The method `Config`. `read` is what `cfgfile.Read` does: the settings it leaves in
`d.TbConfig` and the error it returns. On an error `Config` returns it at once; otherwise
it sets the period and the socket, each from the setting or from its default. The period
is `time.Duration(*Period) * time.Second`, a product of 64-bit integers. -/
def Config (d : Dockerbeat) (read : ConfigSettings × Option String) : Dockerbeat × Option String :=
  let d1 := { d with TbConfig := read.1 }
  match read.2 with
  | some err => (d1, some err)
  | none =>
    let d2 :=
      match d1.TbConfig.Input.Period with
      | some n => { d1 with period := toInt64 (toInt64 n * Second) }
      | none => { d1 with period := toInt64 (1 * Second) }
    let d3 :=
      match d2.TbConfig.Input.Socket with
      | some s => { d2 with socket := s }
      | none => { d2 with socket := "unix:///var/run/docker.sock" }
    (d3, none)

/-- The method `Setup`: a fresh, open `done` channel and an event generator with two empty
maps. -/
def Setup (d : Dockerbeat) : Dockerbeat × Option String :=
  ({ d with done := false, eventGenerator := ⟨[], []⟩ }, none)

/-- The method `Stop`: closes `d.done`. -/
def Stop (d : Dockerbeat) : Dockerbeat := { d with done := true }

/-! ## The collaborators of a round -/

/-- The methods of the event generator that `dockerbeat.go` calls and does not define: the
five event builders, each of which may read and update the Counter Store and receives the
snapshot pointer as it is (`none` is the nil pointer), and the cleanup pass. -/
structure Methods where
  getContainerEvent : EventGenerator → APIContainers → Option Stats → MapStr × EventGenerator
  getCpuEvent : EventGenerator → APIContainers → Option Stats → MapStr × EventGenerator
  getMemoryEvent : EventGenerator → APIContainers → Option Stats → MapStr × EventGenerator
  getNetworkEvent : EventGenerator → APIContainers → Option Stats → MapStr × EventGenerator
  getBlkioEvent : EventGenerator → APIContainers → Option Stats → MapStr × EventGenerator
  cleanOldStats : EventGenerator → List APIContainers → EventGenerator

/-- The docker client as the round sees it. `ListContainers` is the pair the listing call
returns. `Stats` tells, for a request, what the library puts on the channel `statsC`
before closing it: `some s` for a snapshot, `none` when the fetch fails and the channel is
closed with nothing sent. -/
structure DockerClient where
  ListContainers : List APIContainers × Option String
  Stats : StatsOptions → Option Stats

/-- The calls a round makes, as they are recorded in its trace. -/
inductive Call where
  | ListContainers
  | logErr
  | exportContainerStats (container : APIContainers)
  | Stats (options : StatsOptions)
  | getContainerEvent (container : APIContainers) (stats : Option Stats)
  | getCpuEvent (container : APIContainers) (stats : Option Stats)
  | getMemoryEvent (container : APIContainers) (stats : Option Stats)
  | getNetworkEvent (container : APIContainers) (stats : Option Stats)
  | getBlkioEvent (container : APIContainers) (stats : Option Stats)
  | PublishEvents (events : List MapStr)
  | cleanOldStats (containers : List APIContainers)
deriving DecidableEq, Repr

/-- The threads of a round: the caller of `RunOneTime`, and for the `i`-th call of
`exportContainerStats` the goroutine that fetches and the goroutine that publishes. -/
inductive Tid where
  | main
  | fetcher (i : Nat)
  | publisher (i : Nat)
deriving DecidableEq, Repr

/-- The first goroutine of `exportContainerStats`: not yet run, blocked in the send of a
snapshot on the unbuffered `statsC`, or finished. -/
inductive Fetcher where
  | start
  | sending (s : Stats)
  | finished
deriving DecidableEq, Repr

/-- The second goroutine of `exportContainerStats`: blocked in the receive from `statsC`,
holding the received pointer and the events built so far, or finished (with the pointer
it received and the batch it published). -/
inductive Publisher where
  | waiting
  | building (stats : Option Stats) (events : List MapStr)
  | finished (stats : Option Stats) (events : List MapStr)
deriving DecidableEq, Repr

/-- What one call of `exportContainerStats` leaves behind: its container, the options it
built, whether `statsC` has been closed, and its two goroutines. -/
structure Export where
  container : APIContainers
  statsOptions : StatsOptions
  closed : Bool
  fetcher : Fetcher
  publisher : Publisher
deriving DecidableEq, Repr

/-- Where the caller of `RunOneTime` stands: before the listing, in the loop with the
containers still to export, before the cleanup call, or returned. -/
inductive Pc where
  | start
  | loop (rest : List APIContainers)
  | clean
  | returned
deriving DecidableEq, Repr

/-- The state of one round. `containers` is the local variable of `RunOneTime`; `calls` is
the trace, oldest call first, each call with the thread that made it. -/
structure Round where
  pc : Pc
  containers : List APIContainers
  goroutines : List Export
  eventGenerator : EventGenerator
  calls : List (Tid × Call)
deriving DecidableEq, Repr

/-! ## `exportContainerStats` and `RunOneTime` -/

/-- The literal `docker.StatsOptions{container.ID, statsC, false, done, -1}`. -/
def statsOptions (container : APIContainers) : StatsOptions :=
  { ID := container.ID, Stream := false, Timeout := -1 }

/-- The method `exportContainerStats`, run by the caller: it makes the channels and the
options, starts the two goroutines and returns; nothing of the two goroutines has run
yet. -/
def exportContainerStats (container : APIContainers) : Export :=
  { container := container, statsOptions := statsOptions container, closed := false,
    fetcher := Fetcher.start, publisher := Publisher.waiting }

/-- The `k`-th element of the slice literal `events`; Go evaluates the five calls from
first to last. -/
def builder (m : Methods) (k : Nat) : EventGenerator → APIContainers → Option Stats → MapStr × EventGenerator :=
  match k with
  | 0 => m.getContainerEvent
  | 1 => m.getCpuEvent
  | 2 => m.getMemoryEvent
  | 3 => m.getNetworkEvent
  | _ => m.getBlkioEvent

/-- The trace entry of the `k`-th builder call. -/
def builderCall (k : Nat) (container : APIContainers) (stats : Option Stats) : Call :=
  match k with
  | 0 => Call.getContainerEvent container stats
  | 1 => Call.getCpuEvent container stats
  | 2 => Call.getMemoryEvent container stats
  | 3 => Call.getNetworkEvent container stats
  | _ => Call.getBlkioEvent container stats

/-- One step of the caller of `RunOneTime`: the listing with its error test (and the log
line of the else branch), one iteration of the loop, the end of the loop, and the call of
`cleanOldStats` followed by `return nil`. -/
def stepMain (m : Methods) (client : DockerClient) (r : Round) : Option Round :=
  match r.pc with
  | Pc.start =>
    match client.ListContainers.2 with
    | none =>
      some { r with pc := Pc.loop client.ListContainers.1, containers := client.ListContainers.1,
                    calls := r.calls ++ [(Tid.main, Call.ListContainers)] }
    | some _ =>
      some { r with pc := Pc.clean, containers := client.ListContainers.1,
                    calls := r.calls ++ [(Tid.main, Call.ListContainers), (Tid.main, Call.logErr)] }
  | Pc.loop (container :: rest) =>
    some { r with pc := Pc.loop rest, goroutines := r.goroutines ++ [exportContainerStats container],
                  calls := r.calls ++ [(Tid.main, Call.exportContainerStats container)] }
  | Pc.loop [] => some { r with pc := Pc.clean }
  | Pc.clean =>
    some { r with pc := Pc.returned,
                  eventGenerator := m.cleanOldStats r.eventGenerator r.containers,
                  calls := r.calls ++ [(Tid.main, Call.cleanOldStats r.containers)] }
  | Pc.returned => none

/-- One step of the fetching goroutine of the `i`-th export: it calls `Stats` with the
options; the library then either offers a snapshot on `statsC` (and blocks until it is
taken) or closes `statsC` with nothing sent, after which the goroutine ends. -/
def stepFetcher (client : DockerClient) (r : Round) (i : Nat) : Option Round :=
  match r.goroutines[i]? with
  | none => none
  | some g =>
    match g.fetcher with
    | Fetcher.start =>
      match client.Stats g.statsOptions with
      | some s =>
        some { r with goroutines := r.goroutines.set i { g with fetcher := Fetcher.sending s },
                      calls := r.calls ++ [(Tid.fetcher i, Call.Stats g.statsOptions)] }
      | none =>
        some { r with goroutines := r.goroutines.set i { g with fetcher := Fetcher.finished, closed := true },
                      calls := r.calls ++ [(Tid.fetcher i, Call.Stats g.statsOptions)] }
    | _ => none

/-- One step of the publishing goroutine of the `i`-th export. Waiting, it takes the
offered snapshot (which lets the fetching goroutine finish and close the channel) or, from
a closed channel, the nil pointer; with no offer and an open channel it stays blocked.
Then it calls the five builders, one per step, on the shared event generator, and last
`PublishEvents` with the five events. -/
def stepPublisher (m : Methods) (r : Round) (i : Nat) : Option Round :=
  match r.goroutines[i]? with
  | none => none
  | some g =>
    match g.publisher with
    | Publisher.waiting =>
      match g.fetcher with
      | Fetcher.sending s =>
        some { r with goroutines := r.goroutines.set i
                        { g with fetcher := Fetcher.finished, closed := true,
                                 publisher := Publisher.building (some s) [] } }
      | _ =>
        if g.closed then
          some { r with goroutines := r.goroutines.set i { g with publisher := Publisher.building none [] } }
        else none
    | Publisher.building stats events =>
      if events.length < 5 then
        let built := builder m events.length r.eventGenerator g.container stats
        some { r with goroutines := r.goroutines.set i
                        { g with publisher := Publisher.building stats (events ++ [built.1]) },
                      eventGenerator := built.2,
                      calls := r.calls ++ [(Tid.publisher i, builderCall events.length g.container stats)] }
      else
        some { r with goroutines := r.goroutines.set i { g with publisher := Publisher.finished stats events },
                      calls := r.calls ++ [(Tid.publisher i, Call.PublishEvents events)] }
    | Publisher.finished _ _ => none

/-- One step of the thread `t`; `none` when `t` cannot move. -/
def step (m : Methods) (client : DockerClient) (r : Round) (t : Tid) : Option Round :=
  match t with
  | Tid.main => stepMain m client r
  | Tid.fetcher i => stepFetcher client r i
  | Tid.publisher i => stepPublisher m r i

/-- The round under a schedule: the threads step in the order given; `none` when the
schedule asks a thread to move that cannot. -/
def run (m : Methods) (client : DockerClient) (r : Round) : List Tid → Option Round
  | [] => some r
  | t :: rest =>
    match step m client r t with
    | none => none
    | some r1 => run m client r1 rest

/-- The state in which `RunOneTime` is entered: nothing listed, no goroutine of this
round, an empty trace. -/
def enter (g : EventGenerator) : Round :=
  { pc := Pc.start, containers := [], goroutines := [], eventGenerator := g, calls := [] }

/-- The calls of one thread, in order. -/
def callsOf (t : Tid) (calls : List (Tid × Call)) : List Call :=
  (calls.filter (fun e => decide (e.1 = t))).map Prod.snd

/-- The schedule in which only the caller of `RunOneTime` moves, `n` times. -/
def mainOnly (n : Nat) : List Tid := List.replicate n Tid.main

/-! ## `Run` -/

/-- The test of `Run` after a round: `duration.Nanoseconds() > d.period.Nanoseconds()`
with `duration := timerEnd.Sub(timerStart)`. -/
def overrun (timerStart timerEnd period : Int) : Bool :=
  decide (Nanoseconds (Time.Sub timerEnd timerStart) > Nanoseconds period)

/-- Where `Run` stands: at the `select` on top of the loop, inside a round (between the two
clock readings), or returned with its error value (`none` is nil). -/
inductive Loc where
  | top
  | round
  | returned (err : Option String)
deriving DecidableEq, Repr

/-- The state of `Run` and of the two channels it selects on: whether `d.done` is closed,
whether a tick waits in the one-slot channel of the ticker, how many times `RunOneTime`
has been called and how many overrun warnings have been logged. -/
structure Loop where
  loc : Loc
  done : Bool
  tick : Bool
  rounds : Nat
  warnings : Nat
deriving DecidableEq, Repr

/-- The moves of `Run` and of its surroundings. `Stop` and `fire` come from outside: the
call of `Stop` and the ticker putting a tick in its channel. The other three are moves of
`Run` itself: the `select` taking the `done` case, the `select` taking the tick case (which
starts a round), and the end of a round with the two clock readings. -/
inductive Move where
  | Stop
  | fire
  | selectDone
  | selectTick
  | roundDone (timerStart timerEnd : Int)
deriving DecidableEq, Repr

/-- The entry of `Run`: `time.NewTicker` panics on a period that is not positive (`none`);
otherwise the loop starts at its top with no tick yet. -/
def Run.enter (d : Dockerbeat) : Option Loop :=
  if d.period ≤ 0 then none
  else some { loc := Loc.top, done := d.done, tick := false, rounds := 0, warnings := 0 }

/-- One move; `none` when the move is not possible in the state. A `select` case can be
taken exactly when its channel is ready, and with both ready either may be taken. The
ticker drops a tick when one is already waiting, and is stopped when `Run` returns.
Closing a closed channel panics. After a round `Run` logs the warning when `overrun`
holds and goes back to the top of the loop. -/
def Run.step (period : Int) (σ : Loop) : Move → Option Loop
  | Move.Stop => if σ.done then none else some { σ with done := true }
  | Move.fire =>
    match σ.loc with
    | Loc.returned _ => none
    | _ => some { σ with tick := true }
  | Move.selectDone =>
    match σ.loc with
    | Loc.top => if σ.done then some { σ with loc := Loc.returned none } else none
    | _ => none
  | Move.selectTick =>
    match σ.loc with
    | Loc.top => if σ.tick then some { σ with loc := Loc.round, tick := false, rounds := σ.rounds + 1 } else none
    | _ => none
  | Move.roundDone timerStart timerEnd =>
    match σ.loc with
    | Loc.round =>
      some { σ with loc := Loc.top,
                    warnings := σ.warnings + (if overrun timerStart timerEnd period then 1 else 0) }
    | _ => none

/-- A sequence of moves; `none` when one of them is not possible. -/
def Run.exec (period : Int) (σ : Loop) : List Move → Option Loop
  | [] => some σ
  | a :: rest =>
    match Run.step period σ a with
    | none => none
    | some σ1 => Run.exec period σ1 rest

/-! ## The event generator of the specification -/

/-- Modelled from the spec: the Delta Engine is outside `dockerbeat.go`. The delta of one
counter is `current - previous` when a previous value is stored and `current` is not below
it, and zero otherwise (first observation, counter reset). -/
def delta (current : Nat) (previous : Option Nat) : Nat :=
  match previous with
  | none => 0
  | some p => if p ≤ current then current - p else 0

/-- Modelled from the spec: the Counter Store operation `put` is outside `dockerbeat.go`;
it stores the value under the id, replacing what was stored there. -/
def put {α : Type} (id : String) (v : α) (store : List (String × α)) : List (String × α) :=
  (id, v) :: store.filter (fun e => e.1 != id)

/-- Modelled from the spec: the Counter Store operation `retainOnly` is outside
`dockerbeat.go`; it removes all entries whose id is not among the live ids. -/
def retainOnly {α : Type} (liveIds : List String) (store : List (String × α)) : List (String × α) :=
  store.filter (fun e => liveIds.contains e.1)

/-- Modelled from the spec: the identity fields every event carries. -/
def identity (kind : String) (container : APIContainers) : MapStr :=
  [("type", Value.str kind), ("containerID", Value.str container.ID), ("image", Value.str container.Image)]

/-- Modelled from the spec: the methods of the event generator are outside
`dockerbeat.go`. The container, CPU and memory records carry the identity and the
snapshot value; the network and block I/O records carry the deltas against the stored
counters and store the new counters; the cleanup pass keeps the entries of the listed
containers only. With a nil snapshot a builder has no counters: the record carries the
identity alone and the store is left as it is. -/
def specMethods : Methods where
  getContainerEvent := fun g c stats =>
    match stats with
    | none => (identity "container" c, g)
    | some s => (identity "container" c ++ [("read", Value.num s.read)], g)
  getCpuEvent := fun g c stats =>
    match stats with
    | none => (identity "cpu" c, g)
    | some s => (identity "cpu" c ++ [("usage", Value.num s.cpu)], g)
  getMemoryEvent := fun g c stats =>
    match stats with
    | none => (identity "memory" c, g)
    | some s => (identity "memory" c ++ [("usage", Value.num s.memory)], g)
  getNetworkEvent := fun g c stats =>
    match stats with
    | none => (identity "net" c, g)
    | some s =>
      let previous := g.networkStats.lookup c.ID
      (identity "net" c ++
        [("rxDelta", Value.num (delta s.rx (previous.map NetworkData.rx))),
         ("txDelta", Value.num (delta s.tx (previous.map NetworkData.tx)))],
       { g with networkStats := put c.ID ⟨s.read, s.rx, s.tx⟩ g.networkStats })
  getBlkioEvent := fun g c stats =>
    match stats with
    | none => (identity "blkio" c, g)
    | some s =>
      let previous := g.blkioStats.lookup c.ID
      (identity "blkio" c ++
        [("readDelta", Value.num (delta s.blkRead (previous.map BlkioStats.reads))),
         ("writeDelta", Value.num (delta s.blkWrite (previous.map BlkioStats.writes)))],
       { g with blkioStats := put c.ID ⟨s.read, s.blkRead, s.blkWrite⟩ g.blkioStats })
  cleanOldStats := fun g containers =>
    { networkStats := retainOnly (containers.map APIContainers.ID) g.networkStats,
      blkioStats := retainOnly (containers.map APIContainers.ID) g.blkioStats }

/-! ## Invariants of a round -/

/-- The first `n` builder calls of a publishing goroutine. -/
def builderCalls (n : Nat) (container : APIContainers) (stats : Option Stats) : List Call :=
  (List.range n).map (fun k => builderCall k container stats)

/-- The calls the fetching goroutine of an export has made, read off its state. -/
def fetcherCalls (e : Export) : List Call :=
  match e.fetcher with
  | Fetcher.start => []
  | _ => [Call.Stats e.statsOptions]

/-- The calls the publishing goroutine of an export has made, read off its state. -/
def publisherCalls (e : Export) : List Call :=
  match e.publisher with
  | Publisher.waiting => []
  | Publisher.building stats events => builderCalls events.length e.container stats
  | Publisher.finished stats events => builderCalls 5 e.container stats ++ [Call.PublishEvents events]

/-- Every event of the list is the result of the builder of its position, called with the
container and the snapshot pointer (on some state of the event generator). -/
def Built (m : Methods) (container : APIContainers) (stats : Option Stats) (events : List MapStr) : Prop :=
  ∀ k, k < events.length → ∃ g, events[k]? = some (builder m k g container stats).1

/-- The states of the two goroutines of an export fit together: the options are those of
the container, the channel is closed exactly when the fetching goroutine has finished
(with nothing delivered as long as the publishing goroutine still waits), the publishing goroutine holds what the client delivered for the request, and it never
holds more than five events. -/
def ExportOk (m : Methods) (client : DockerClient) (e : Export) : Prop :=
  e.statsOptions = statsOptions e.container ∧
  (match e.fetcher with
   | Fetcher.start => e.closed = false ∧ e.publisher = Publisher.waiting
   | Fetcher.sending s =>
     e.closed = false ∧ e.publisher = Publisher.waiting ∧ client.Stats e.statsOptions = some s
   | Fetcher.finished =>
     e.closed = true ∧ (e.publisher = Publisher.waiting → client.Stats e.statsOptions = none)) ∧
  (match e.publisher with
   | Publisher.waiting => True
   | Publisher.building stats events =>
     e.fetcher = Fetcher.finished ∧ stats = client.Stats e.statsOptions ∧ events.length ≤ 5 ∧
       Built m e.container stats events
   | Publisher.finished stats events =>
     e.fetcher = Fetcher.finished ∧ stats = client.Stats e.statsOptions ∧ events.length = 5 ∧
       Built m e.container stats events)

/-- The invariant of the goroutines: every export is well formed and the trace holds, for
each of its goroutines, exactly the calls its state tells; no other goroutine has made a
call. -/
def GoInv (m : Methods) (client : DockerClient) (r : Round) : Prop :=
  (∀ i e, r.goroutines[i]? = some e →
    ExportOk m client e ∧ callsOf (Tid.fetcher i) r.calls = fetcherCalls e ∧
      callsOf (Tid.publisher i) r.calls = publisherCalls e) ∧
  (∀ i, r.goroutines.length ≤ i →
    callsOf (Tid.fetcher i) r.calls = [] ∧ callsOf (Tid.publisher i) r.calls = [])

/-- The invariant of the caller of `RunOneTime`: by program point, which containers have
been exported and which calls the caller has made. -/
def MainInv (client : DockerClient) (r : Round) : Prop :=
  match r.pc with
  | Pc.start => r.goroutines = [] ∧ r.calls = []
  | Pc.loop rest =>
    client.ListContainers.2 = none ∧ r.containers = client.ListContainers.1 ∧
    ∃ exported, client.ListContainers.1 = exported ++ rest ∧
      r.goroutines.map Export.container = exported ∧
      callsOf Tid.main r.calls = Call.ListContainers :: exported.map Call.exportContainerStats
  | Pc.clean =>
    r.containers = client.ListContainers.1 ∧
    ((client.ListContainers.2 = none ∧
        r.goroutines.map Export.container = client.ListContainers.1 ∧
        callsOf Tid.main r.calls =
          Call.ListContainers :: client.ListContainers.1.map Call.exportContainerStats) ∨
     (client.ListContainers.2 ≠ none ∧ r.goroutines = [] ∧
        r.calls = [(Tid.main, Call.ListContainers), (Tid.main, Call.logErr)]))
  | Pc.returned =>
    r.containers = client.ListContainers.1 ∧
    ((client.ListContainers.2 = none ∧
        r.goroutines.map Export.container = client.ListContainers.1 ∧
        callsOf Tid.main r.calls =
          Call.ListContainers :: client.ListContainers.1.map Call.exportContainerStats ++
            [Call.cleanOldStats client.ListContainers.1]) ∨
     (client.ListContainers.2 ≠ none ∧ r.goroutines = [] ∧
        r.calls = [(Tid.main, Call.ListContainers), (Tid.main, Call.logErr),
                   (Tid.main, Call.cleanOldStats client.ListContainers.1)]))

/-- Both goroutines of the export have finished. -/
def Export.resolved (e : Export) : Bool :=
  match e.fetcher, e.publisher with
  | Fetcher.finished, Publisher.finished _ _ => true
  | _, _ => false

/-! ## Concrete inputs -/

/-- A container with the id `a`. -/
def containerA : APIContainers := ⟨"a", "img", ["/a"]⟩

/-- A snapshot with cumulative network counters 1000 and 500. -/
def snapshotA : Stats := ⟨10, 1, 2, 1000, 500, 7, 8⟩

/-- A client that lists the container `a` and delivers `snapshotA` for every request. -/
def clientA : DockerClient := ⟨([containerA], none), fun _ => some snapshotA⟩

/-- A client that lists the container `a` and whose stats fetch fails: the channel is
closed with nothing sent. -/
def clientNoStats : DockerClient := ⟨([containerA], none), fun _ => none⟩

/-- A client whose listing fails: it returns a nil slice and an error. -/
def clientNoList : DockerClient := ⟨([], some "cannot connect"), fun _ => none⟩

/-- An event generator whose Counter Store holds network counters for the container `a`. -/
def storeA : EventGenerator := ⟨[("a", ⟨1, 900, 400⟩)], []⟩

/-- A schedule of the round of `clientA`: the caller lists and exports, the fetching
goroutine runs, the publishing goroutine receives the snapshot and calls three builders,
the caller leaves the loop and calls `cleanOldStats`, and then the publishing goroutine
calls the last two builders and publishes. -/
def scheduleA : List Tid :=
  [Tid.main, Tid.main, Tid.fetcher 0, Tid.publisher 0, Tid.publisher 0, Tid.publisher 0,
   Tid.publisher 0, Tid.main, Tid.main, Tid.publisher 0, Tid.publisher 0, Tid.publisher 0]

/-- The batch the round of `clientA` publishes under `scheduleA`. -/
def eventsA : List MapStr :=
  [[("type", Value.str "container"), ("containerID", Value.str "a"), ("image", Value.str "img"),
    ("read", Value.num 10)],
   [("type", Value.str "cpu"), ("containerID", Value.str "a"), ("image", Value.str "img"),
    ("usage", Value.num 1)],
   [("type", Value.str "memory"), ("containerID", Value.str "a"), ("image", Value.str "img"),
    ("usage", Value.num 2)],
   [("type", Value.str "net"), ("containerID", Value.str "a"), ("image", Value.str "img"),
    ("rxDelta", Value.num 100), ("txDelta", Value.num 100)],
   [("type", Value.str "blkio"), ("containerID", Value.str "a"), ("image", Value.str "img"),
    ("readDelta", Value.num 0), ("writeDelta", Value.num 0)]]

/-- The state the round of `clientA` reaches under `scheduleA`. -/
def roundA : Round :=
  { pc := Pc.returned,
    containers := [containerA],
    goroutines :=
      [{ container := containerA, statsOptions := ⟨"a", false, -1⟩, closed := true,
         fetcher := Fetcher.finished, publisher := Publisher.finished (some snapshotA) eventsA }],
    eventGenerator := ⟨[("a", ⟨10, 1000, 500⟩)], [("a", ⟨10, 7, 8⟩)]⟩,
    calls :=
      [(Tid.main, Call.ListContainers),
       (Tid.main, Call.exportContainerStats containerA),
       (Tid.fetcher 0, Call.Stats ⟨"a", false, -1⟩),
       (Tid.publisher 0, Call.getContainerEvent containerA (some snapshotA)),
       (Tid.publisher 0, Call.getCpuEvent containerA (some snapshotA)),
       (Tid.publisher 0, Call.getMemoryEvent containerA (some snapshotA)),
       (Tid.main, Call.cleanOldStats [containerA]),
       (Tid.publisher 0, Call.getNetworkEvent containerA (some snapshotA)),
       (Tid.publisher 0, Call.getBlkioEvent containerA (some snapshotA)),
       (Tid.publisher 0, Call.PublishEvents eventsA)] }

/-- The state the round of `clientA` reaches when only the caller of `RunOneTime` moves:
returned, with both goroutines of the export started and neither run. -/
def roundMainOnly : Round :=
  { pc := Pc.returned,
    containers := [containerA],
    goroutines := [exportContainerStats containerA],
    eventGenerator := storeA,
    calls :=
      [(Tid.main, Call.ListContainers),
       (Tid.main, Call.exportContainerStats containerA),
       (Tid.main, Call.cleanOldStats [containerA])] }

/-- The state the round of `clientNoList` reaches: returned, with the Counter Store
emptied by the cleanup pass. -/
def roundNoList : Round :=
  { pc := Pc.returned,
    containers := [],
    goroutines := [],
    eventGenerator := ⟨[], []⟩,
    calls :=
      [(Tid.main, Call.ListContainers), (Tid.main, Call.logErr), (Tid.main, Call.cleanOldStats [])] }

/-- A container with the id `b`. -/
def containerB : APIContainers := ⟨"b", "img", ["/b"]⟩

/-- A client that lists the containers `a` and `b`, in this order, and delivers `snapshotA`
for every request. -/
def clientAB : DockerClient := ⟨([containerA, containerB], none), fun _ => some snapshotA⟩

/-- The stats requests of a trace, in the order in which they were made. -/
def statsRequests (calls : List (Tid × Call)) : List StatsOptions :=
  calls.filterMap (fun e =>
    match e.2 with
    | Call.Stats o => some o
    | _ => none)

/-- A schedule of the round of `clientAB`: the caller lists and exports `a` and then `b`,
the fetching goroutine of `b` runs before the fetching goroutine of `a`, and the caller
leaves the loop, calls `cleanOldStats` and returns. -/
def scheduleBA : List Tid :=
  [Tid.main, Tid.main, Tid.main, Tid.fetcher 1, Tid.fetcher 0, Tid.main, Tid.main]

/-- The state the round of `clientAB` reaches under `scheduleBA`. -/
def roundBA : Round :=
  { pc := Pc.returned,
    containers := [containerA, containerB],
    goroutines :=
      [{ container := containerA, statsOptions := ⟨"a", false, -1⟩, closed := false,
         fetcher := Fetcher.sending snapshotA, publisher := Publisher.waiting },
       { container := containerB, statsOptions := ⟨"b", false, -1⟩, closed := false,
         fetcher := Fetcher.sending snapshotA, publisher := Publisher.waiting }],
    eventGenerator := storeA,
    calls :=
      [(Tid.main, Call.ListContainers),
       (Tid.main, Call.exportContainerStats containerA),
       (Tid.main, Call.exportContainerStats containerB),
       (Tid.fetcher 1, Call.Stats ⟨"b", false, -1⟩),
       (Tid.fetcher 0, Call.Stats ⟨"a", false, -1⟩),
       (Tid.main, Call.cleanOldStats [containerA, containerB])] }

/-! # Theorems -/

/-! ## Traces -/

theorem callsOf_append (t : Tid) (a b : List (Tid × Call)) :
    callsOf t (a ++ b) = callsOf t a ++ callsOf t b := by
  simp [callsOf]

theorem callsOf_one (t u : Tid) (c : Call) :
    callsOf t [(u, c)] = if u = t then [c] else [] := by
  by_cases h : u = t <;> simp [callsOf, h]

theorem builderCalls_succ (n : Nat) (c : APIContainers) (st : Option Stats) :
    builderCalls (n + 1) c st = builderCalls n c st ++ [builderCall n c st] := by
  simp [builderCalls, List.range_succ]

theorem run_invariant (m : Methods) (client : DockerClient) (P : Round → Prop)
    (hstep : ∀ r t r1, P r → step m client r t = some r1 → P r1) :
    ∀ (sched : List Tid) (r r1 : Round), P r → run m client r sched = some r1 → P r1 := by
  intro sched
  induction sched with
  | nil =>
    intro r r1 hP h
    simp only [run, Option.some.injEq] at h
    exact h ▸ hP
  | cons t rest ih =>
    intro r r1 hP h
    simp only [run] at h
    cases hs : step m client r t with
    | none => simp [hs] at h
    | some r2 =>
      rw [hs] at h
      exact ih r2 r1 (hstep r t r2 hP hs) h

/-! ## `Config` -/

theorem toInt64_of_fits (x : Int) (hlo : -9223372036854775808 ≤ x) (hhi : x ≤ 9223372036854775807) :
    toInt64 x = x := by
  unfold toInt64
  omega

theorem toInt64_seconds_ne_max (n : Int) : toInt64 (toInt64 n * Second) ≠ maxDuration := by
  unfold toInt64 Second maxDuration
  omega

theorem toInt64_ge_min (x : Int) : minDuration ≤ toInt64 x := by
  unfold toInt64 minDuration
  omega

theorem Config_period (d : Dockerbeat) (cfg : ConfigSettings) :
    (Config d (cfg, none)).1.period =
      match cfg.Input.Period with
      | some n => toInt64 (toInt64 n * Second)
      | none => toInt64 (1 * Second) := by
  unfold Config
  cases hp : cfg.Input.Period <;> cases hs : cfg.Input.Socket <;> simp [hp, hs]

theorem Config_period_bounds (d : Dockerbeat) (cfg : ConfigSettings) :
    minDuration ≤ (Config d (cfg, none)).1.period ∧ (Config d (cfg, none)).1.period < maxDuration := by
  rw [Config_period]
  cases cfg.Input.Period with
  | none => simp only [toInt64, Second, minDuration, maxDuration]; omega
  | some n =>
    refine ⟨toInt64_ge_min _, ?_⟩
    have h := toInt64_seconds_ne_max n
    simp only [toInt64, Second, maxDuration] at h ⊢
    omega

/-- C9 as stated fails: a configured period of 9223372037 seconds does not fit the 64-bit
nanosecond count of a duration, and `Config` succeeds with a negative interval instead of
9223372037 seconds. -/
theorem Config_period_wraps_counterexample :
    (Config ⟨false, 0, "", ⟨⟨none, none⟩⟩, ⟨[], []⟩⟩ (⟨⟨some 9223372037, none⟩⟩, none)).2 = none ∧
    (Config ⟨false, 0, "", ⟨⟨none, none⟩⟩, ⟨[], []⟩⟩ (⟨⟨some 9223372037, none⟩⟩, none)).1.period
      = -9223372036709551616 ∧
    (Config ⟨false, 0, "", ⟨⟨none, none⟩⟩, ⟨[], []⟩⟩ (⟨⟨some 9223372037, none⟩⟩, none)).1.period
      ≠ 9223372037 * Second := by
  decide

/-- C9, amended: after `Config` succeeds the interval is exactly 1 second when no period
is configured and exactly `n` seconds when a period `n` between -9223372036 and
9223372036 is configured (beyond that the product wraps to `toInt64 (n * Second)`); the
socket is `unix:///var/run/docker.sock` when none is configured and the configured string
otherwise; when reading the configuration fails, `Config` returns that error and sets
neither the period nor the socket. -/
theorem Config_sets_period_and_socket (d : Dockerbeat) (n : Int) (period : Option Int)
    (socket : Option String) (address err : String) (cfg : ConfigSettings)
    (hlo : -9223372036 ≤ n) (hhi : n ≤ 9223372036) :
    (Config d (cfg, none)).2 = none ∧
    (Config d (⟨⟨none, socket⟩⟩, none)).1.period = 1 * Second ∧
    (Config d (⟨⟨some n, socket⟩⟩, none)).1.period = n * Second ∧
    (Config d (⟨⟨period, none⟩⟩, none)).1.socket = "unix:///var/run/docker.sock" ∧
    (Config d (⟨⟨period, some address⟩⟩, none)).1.socket = address ∧
    (Config d (cfg, some err)).2 = some err ∧
    (Config d (cfg, some err)).1.period = d.period ∧
    (Config d (cfg, some err)).1.socket = d.socket := by
  refine ⟨?_, ?_, ?_, ?_, ?_, ?_, ?_, ?_⟩
  · simp [Config]
  · rw [Config_period]; simp only [toInt64, Second]; omega
  · rw [Config_period]
    simp only
    rw [toInt64_of_fits n (by omega) (by omega), toInt64_of_fits _ (by unfold Second; omega)
      (by unfold Second; omega)]
  · cases period <;> simp [Config]
  · cases period <;> simp [Config]
  · simp [Config]
  · simp [Config]
  · simp [Config]

/-- The amended C9 at a period of 5 seconds. -/
theorem Config_sets_period_and_socket_witness :
    (-9223372036 : Int) ≤ 5 ∧ (5 : Int) ≤ 9223372036 ∧
    (Config ⟨false, 0, "", ⟨⟨none, none⟩⟩, ⟨[], []⟩⟩ (⟨⟨some 5, none⟩⟩, none)).1.period = 5 * Second :=
  ⟨by decide, by decide,
   (Config_sets_period_and_socket ⟨false, 0, "", ⟨⟨none, none⟩⟩, ⟨[], []⟩⟩ 5 none none "" ""
      ⟨⟨none, none⟩⟩ (by decide) (by decide)).2.2.1⟩

/-! ## The stats options -/

/-- C7 as stated fails: the timeout of the options built for a container is not a
positive duration. -/
theorem statsOptions_timeout_counterexample :
    ¬ (0 < (exportContainerStats ⟨"a", "img", ["/a"]⟩).statsOptions.Timeout) := by
  decide

/-- C7, amended: the options `exportContainerStats` builds carry the same timeout for every
container, the constant -1: a negative duration, not a positive bound on the wait. -/
theorem statsOptions_timeout (container : APIContainers) :
    (exportContainerStats container).statsOptions.Timeout = -1 ∧
    (exportContainerStats container).statsOptions.Timeout < 0 := by
  simp [exportContainerStats, statsOptions]

/-! ## `Run` -/

theorem overrun_iff (s e p : Int) (hlo : minDuration ≤ p) (hhi : p < maxDuration) :
    overrun s e p = true ↔ e - s > p := by
  unfold overrun Nanoseconds Time.Sub
  unfold minDuration at hlo
  unfold maxDuration at hhi
  simp only [decide_eq_true_eq, minDuration, maxDuration]
  split_ifs <;> omega

/-- C8: after a round that started at `s` and ended at `e`, `Run` with a configured period
`p` logs the overrun warning exactly when `e - s`, in nanoseconds, is strictly greater than
`p` (the test of the code, and the true elapsed time as well); a round that lasts exactly
`p` logs nothing; in both cases `Run` goes back to the top of the loop. -/
theorem Run_overrun_warning (d : Dockerbeat) (cfg : ConfigSettings) (s e : Int)
    (done tick : Bool) (rounds warnings : Nat) :
    (overrun s e (Config d (cfg, none)).1.period = true ↔
      Nanoseconds (Time.Sub e s) > Nanoseconds (Config d (cfg, none)).1.period) ∧
    (overrun s e (Config d (cfg, none)).1.period = true ↔ e - s > (Config d (cfg, none)).1.period) ∧
    overrun s (s + (Config d (cfg, none)).1.period) (Config d (cfg, none)).1.period = false ∧
    Run.step (Config d (cfg, none)).1.period ⟨Loc.round, done, tick, rounds, warnings⟩ (Move.roundDone s e)
      = some ⟨Loc.top, done, tick, rounds,
          warnings + (if e - s > (Config d (cfg, none)).1.period then 1 else 0)⟩ := by
  obtain ⟨hlo, hhi⟩ := Config_period_bounds d cfg
  have hiff := fun e => overrun_iff s e _ hlo hhi
  refine ⟨by simp [overrun], hiff e, ?_, ?_⟩
  · cases h : overrun s (s + (Config d (cfg, none)).1.period) (Config d (cfg, none)).1.period with
    | false => rfl
    | true => have := (hiff _).1 h; omega
  · simp only [Run.step, hiff e]

/-- C6 as stated fails: after `Stop` has closed `done`, a tick that is pending at the top
of the loop can still be taken by the `select`, and a new round starts. Here `Run` is
entered with a period of one second; the first round is running when `Stop` is called and
the ticker fires; back at the top both channels are ready and the tick case starts
round 2. -/
theorem Run_round_after_Stop_counterexample :
    Run.enter ⟨false, 1000000000, "", ⟨⟨none, none⟩⟩, ⟨[], []⟩⟩
      = some ⟨Loc.top, false, false, 0, 0⟩ ∧
    Run.exec 1000000000 ⟨Loc.top, false, false, 0, 0⟩
        [Move.fire, Move.selectTick, Move.Stop, Move.fire, Move.roundDone 0 5]
      = some ⟨Loc.top, true, true, 1, 0⟩ ∧
    Run.step 1000000000 ⟨Loc.top, true, true, 1, 0⟩ Move.selectTick
      = some ⟨Loc.round, true, false, 2, 0⟩ := by
  decide

/-- C6, amended: once `Stop` has closed `done`, at the top of the loop the `select` does
not block: the `done` case can be taken and `Run` then returns nil. With no tick pending
it is the only move of `Run`, so no round starts. With a tick pending the `select` may
take either case: `Run` returns nil or starts one more round. After `Run` has returned,
no move is left and no round starts. -/
theorem Run_after_Stop (period : Int) (tick : Bool) (rounds warnings : Nat) (s e : Int)
    (err : Option String) (a : Move) :
    Run.step period ⟨Loc.top, true, tick, rounds, warnings⟩ Move.selectDone
      = some ⟨Loc.returned none, true, tick, rounds, warnings⟩ ∧
    Run.step period ⟨Loc.top, true, false, rounds, warnings⟩ Move.selectTick = none ∧
    Run.step period ⟨Loc.top, true, false, rounds, warnings⟩ (Move.roundDone s e) = none ∧
    Run.step period ⟨Loc.top, true, true, rounds, warnings⟩ Move.selectTick
      = some ⟨Loc.round, true, false, rounds + 1, warnings⟩ ∧
    Run.step period ⟨Loc.returned err, true, tick, rounds, warnings⟩ a = none := by
  refine ⟨rfl, rfl, rfl, rfl, ?_⟩
  cases a <;> rfl


theorem callsOf_nil (t : Tid) : callsOf t [] = [] := rfl

theorem callsOf_cons (t u : Tid) (c : Call) (l : List (Tid × Call)) :
    callsOf t ((u, c) :: l) = if u = t then c :: callsOf t l else callsOf t l := by
  by_cases h : u = t <;> simp [callsOf, h]

theorem callsOf_snoc_other (t u : Tid) (c : Call) (l : List (Tid × Call)) (h : u ≠ t) :
    callsOf t (l ++ [(u, c)]) = callsOf t l := by
  simp [callsOf_append, callsOf_one, h]

theorem callsOf_snoc_same (t : Tid) (c : Call) (l : List (Tid × Call)) :
    callsOf t (l ++ [(t, c)]) = callsOf t l ++ [c] := by
  simp [callsOf_append, callsOf_one]

theorem ExportOk_new (m : Methods) (client : DockerClient) (c : APIContainers) :
    ExportOk m client (exportContainerStats c) := by
  simp [ExportOk, exportContainerStats]

theorem GoInv_stepMain (m : Methods) (client : DockerClient) (r r1 : Round)
    (hI : GoInv m client r) (h : stepMain m client r = some r1) : GoInv m client r1 := by
  obtain ⟨hA, hB⟩ := hI
  unfold stepMain at h
  split at h
  · split at h
    · cases h
      refine ⟨fun i e he => ?_, fun i hi => ?_⟩
      · simpa [callsOf_snoc_other] using hA i e he
      · simpa [callsOf_snoc_other] using hB i hi
    · cases h
      refine ⟨fun i e he => ?_, fun i hi => ?_⟩
      · simpa [callsOf_append, callsOf_cons, callsOf_nil] using hA i e he
      · simpa [callsOf_append, callsOf_cons, callsOf_nil] using hB i hi
  · cases h
    refine ⟨fun i e he => ?_, fun i hi => ?_⟩
    · simp only [callsOf_snoc_other _ _ _ _ (show Tid.main ≠ Tid.fetcher i by simp),
        callsOf_snoc_other _ _ _ _ (show Tid.main ≠ Tid.publisher i by simp)]
      by_cases hi : i < r.goroutines.length
      · rw [List.getElem?_append_left hi] at he
        exact hA i e he
      · have hi1 : r.goroutines.length ≤ i := Nat.le_of_not_lt hi
        rw [List.getElem?_append_right hi1] at he
        cases hk : i - r.goroutines.length with
        | succ k => rw [hk] at he; simp at he
        | zero =>
        rw [hk] at he
        simp only [List.getElem?_cons_zero, Option.some.injEq] at he
        subst he
        refine ⟨ExportOk_new m client _, ?_, ?_⟩
        · rw [(hB i hi1).1]; rfl
        · rw [(hB i hi1).2]; rfl
    · simp only [List.length_append, List.length_singleton] at hi
      simpa [callsOf_snoc_other] using hB i (by omega)
  · cases h
    exact ⟨hA, hB⟩
  · cases h
    refine ⟨fun i e he => ?_, fun i hi => ?_⟩
    · simpa [callsOf_snoc_other] using hA i e he
    · simpa [callsOf_snoc_other] using hB i hi
  · cases h

theorem callsOf_eq_nil (t : Tid) (l : List (Tid × Call)) (h : ∀ x ∈ l, x.1 ≠ t) :
    callsOf t l = [] := by
  induction l with
  | nil => rfl
  | cons x rest ih =>
    obtain ⟨u, c⟩ := x
    have hu : u ≠ t := h (u, c) (List.mem_cons_self _ _)
    rw [callsOf_cons, if_neg hu]
    exact ih (fun y hy => h y (List.mem_cons_of_mem _ hy))

theorem GoInv_update (m : Methods) (client : DockerClient) (r r1 : Round) (i : Nat)
    (g g1 : Export) (extra : List (Tid × Call))
    (hI : GoInv m client r) (hg : r.goroutines[i]? = some g)
    (hgs : r1.goroutines = r.goroutines.set i g1) (hcs : r1.calls = r.calls ++ extra)
    (hok : ExportOk m client g1)
    (hextra : ∀ x ∈ extra, x.1 = Tid.fetcher i ∨ x.1 = Tid.publisher i)
    (hf : fetcherCalls g1 = fetcherCalls g ++ callsOf (Tid.fetcher i) extra)
    (hp : publisherCalls g1 = publisherCalls g ++ callsOf (Tid.publisher i) extra) :
    GoInv m client r1 := by
  obtain ⟨hA, hB⟩ := hI
  have hlt : i < r.goroutines.length := by
    by_contra hge
    rw [List.getElem?_eq_none (Nat.le_of_not_lt hge)] at hg
    cases hg
  have hother : ∀ j, j ≠ i → callsOf (Tid.fetcher j) extra = [] ∧ callsOf (Tid.publisher j) extra = [] := by
    intro j hj
    constructor
    · apply callsOf_eq_nil
      intro x hx hxt
      rcases hextra x hx with h1 | h1 <;> rw [h1] at hxt <;> simp at hxt
      exact hj hxt.symm
    · apply callsOf_eq_nil
      intro x hx hxt
      rcases hextra x hx with h1 | h1 <;> rw [h1] at hxt <;> simp at hxt
      exact hj hxt.symm
  refine ⟨fun j e he => ?_, fun j hj => ?_⟩
  · rw [hgs] at he
    rw [hcs, callsOf_append, callsOf_append]
    by_cases hji : j = i
    · subst hji
      rw [List.getElem?_set_self hlt] at he
      cases he
      obtain ⟨_, h2, h3⟩ := hA j g hg
      exact ⟨hok, by rw [h2, hf], by rw [h3, hp]⟩
    · rw [List.getElem?_set_ne (fun h => hji h.symm)] at he
      obtain ⟨h1, h2, h3⟩ := hA j e he
      obtain ⟨h4, h5⟩ := hother j hji
      exact ⟨h1, by rw [h2, h4, List.append_nil], by rw [h3, h5, List.append_nil]⟩
  · rw [hgs, List.length_set] at hj
    have hji : j ≠ i := by omega
    obtain ⟨h4, h5⟩ := hother j hji
    obtain ⟨h2, h3⟩ := hB j hj
    rw [hcs, callsOf_append, callsOf_append, h2, h3, h4, h5]
    exact ⟨rfl, rfl⟩

theorem GoInv_stepFetcher (m : Methods) (client : DockerClient) (r r1 : Round) (i : Nat)
    (hI : GoInv m client r) (h : stepFetcher client r i = some r1) : GoInv m client r1 := by
  unfold stepFetcher at h
  cases hgi : r.goroutines[i]? with
  | none => simp [hgi] at h
  | some g =>
    obtain ⟨hok, -, -⟩ := hI.1 i g hgi
    obtain ⟨hopt, hfet, hpub⟩ := hok
    cases hfe : g.fetcher with
    | sending s => simp [hgi, hfe] at h
    | finished => simp [hgi, hfe] at h
    | start =>
      simp only [hfe] at hfet
      cases hst : client.Stats g.statsOptions with
      | some s =>
        simp only [hgi, hfe, hst, Option.some.injEq] at h
        subst h
        refine GoInv_update m client r _ i g _ [(Tid.fetcher i, Call.Stats g.statsOptions)]
          hI hgi rfl rfl ?_ ?_ ?_ ?_
        · refine ⟨hopt, ?_, ?_⟩
          · exact ⟨hfet.1, hfet.2, hst⟩
          · simp [hfet.2]
        · simp
        · simp [fetcherCalls, hfe, callsOf_cons, callsOf_nil]
        · simp [publisherCalls, callsOf_cons, callsOf_nil]
      | none =>
        simp only [hgi, hfe, hst, Option.some.injEq] at h
        subst h
        refine GoInv_update m client r _ i g _ [(Tid.fetcher i, Call.Stats g.statsOptions)]
          hI hgi rfl rfl ?_ ?_ ?_ ?_
        · refine ⟨hopt, ?_, ?_⟩
          · exact ⟨rfl, fun _ => hst⟩
          · simp [hfet.2]
        · simp
        · simp [fetcherCalls, hfe, callsOf_cons, callsOf_nil]
        · simp [publisherCalls, callsOf_cons, callsOf_nil]

theorem Built_nil (m : Methods) (c : APIContainers) (st : Option Stats) : Built m c st [] := by
  intro k hk
  simp at hk

theorem Built_snoc (m : Methods) (c : APIContainers) (st : Option Stats) (events : List MapStr)
    (g : EventGenerator) (h : Built m c st events) :
    Built m c st (events ++ [(builder m events.length g c st).1]) := by
  intro k hk
  simp only [List.length_append, List.length_singleton] at hk
  by_cases hlt : k < events.length
  · rw [List.getElem?_append_left hlt]
    exact h k hlt
  · have hk1 : k = events.length := by omega
    subst hk1
    exact ⟨g, by simp⟩

theorem GoInv_stepPublisher (m : Methods) (client : DockerClient) (r r1 : Round) (i : Nat)
    (hI : GoInv m client r) (h : stepPublisher m r i = some r1) : GoInv m client r1 := by
  unfold stepPublisher at h
  cases hgi : r.goroutines[i]? with
  | none => simp [hgi] at h
  | some g =>
    obtain ⟨hok, -, -⟩ := hI.1 i g hgi
    obtain ⟨hopt, hfet, hpub⟩ := hok
    cases hpu : g.publisher with
    | finished st events => simp [hgi, hpu] at h
    | waiting =>
      cases hfe : g.fetcher with
      | sending s =>
        simp only [hfe] at hfet
        simp only [hgi, hpu, hfe, Option.some.injEq] at h
        subst h
        refine GoInv_update m client r _ i g _ [] hI hgi rfl (List.append_nil _).symm ?_ ?_ ?_ ?_
        · exact ⟨hopt, ⟨rfl, by simp⟩, rfl, hfet.2.2.symm, by simp, Built_nil m _ _⟩
        · simp
        · simp [fetcherCalls, hfe, callsOf_nil]
        · simp [publisherCalls, hpu, builderCalls, callsOf_nil]
      | start =>
        simp only [hfe] at hfet
        simp [hgi, hpu, hfe, hfet.1] at h
      | finished =>
        simp only [hfe] at hfet
        simp only [hgi, hpu, hfe, hfet.1, if_true, Option.some.injEq] at h
        subst h
        refine GoInv_update m client r _ i g _ [] hI hgi rfl (List.append_nil _).symm ?_ ?_ ?_ ?_
        · refine ⟨hopt, ?_, ?_⟩
          · simp [hfe, hfet.1]
          · exact ⟨rfl, (hfet.2 hpu).symm, by simp, Built_nil m _ _⟩
        · simp
        · simp [fetcherCalls, hfe, callsOf_nil]
        · simp [publisherCalls, hpu, builderCalls, callsOf_nil]
    | building st events =>
      simp only [hpu] at hpub
      obtain ⟨hfin, hst, hlen, hbuilt⟩ := hpub
      by_cases hlt : events.length < 5
      · simp only [hgi, hpu, hlt, if_true, Option.some.injEq] at h
        subst h
        refine GoInv_update m client r _ i g _
          [(Tid.publisher i, builderCall events.length g.container st)] hI hgi rfl rfl ?_ ?_ ?_ ?_
        · refine ⟨hopt, ?_, ?_⟩
          · simp only [hfin] at hfet
            simp [hfin, hfet.1]
          · exact ⟨hfin, hst, by simp; omega, Built_snoc m _ _ _ _ hbuilt⟩
        · simp
        · simp [fetcherCalls, callsOf_cons, callsOf_nil]
        · simp [publisherCalls, hpu, builderCalls_succ, callsOf_cons, callsOf_nil]
      · simp only [hgi, hpu, hlt, if_false, Option.some.injEq] at h
        subst h
        have hlen5 : events.length = 5 := by omega
        refine GoInv_update m client r _ i g _
          [(Tid.publisher i, Call.PublishEvents events)] hI hgi rfl rfl ?_ ?_ ?_ ?_
        · refine ⟨hopt, ?_, ?_⟩
          · simp only [hfin] at hfet
            simp [hfin, hfet.1]
          · exact ⟨hfin, hst, hlen5, hbuilt⟩
        · simp
        · simp [fetcherCalls, callsOf_cons, callsOf_nil]
        · simp [publisherCalls, hpu, hlen5, callsOf_cons, callsOf_nil]

theorem GoInv_step (m : Methods) (client : DockerClient) (r : Round) (t : Tid) (r1 : Round)
    (hI : GoInv m client r) (h : step m client r t = some r1) : GoInv m client r1 := by
  cases t with
  | main => exact GoInv_stepMain m client r r1 hI h
  | fetcher i => exact GoInv_stepFetcher m client r r1 i hI h
  | publisher i => exact GoInv_stepPublisher m client r r1 i hI h

theorem GoInv_enter (m : Methods) (client : DockerClient) (g : EventGenerator) :
    GoInv m client (enter g) := by
  refine ⟨fun i e he => ?_, fun i _ => ⟨rfl, rfl⟩⟩
  simp [enter] at he

theorem map_container_set (gs : List Export) (i : Nat) (g g1 : Export)
    (hg : gs[i]? = some g) (hc : g1.container = g.container) :
    (gs.set i g1).map Export.container = gs.map Export.container := by
  apply List.ext_getElem?
  intro j
  by_cases hji : i = j
  · subst hji
    have hlt : i < gs.length := by
      by_contra hge
      rw [List.getElem?_eq_none (Nat.le_of_not_lt hge)] at hg
      cases hg
    rw [List.getElem?_map, List.getElem?_map, List.getElem?_set_self hlt, hg, Option.map_some',
      Option.map_some', hc]
  · simp [List.getElem?_map, List.getElem?_set_ne hji]

theorem stepFetcher_frame (client : DockerClient) (r r1 : Round) (i : Nat)
    (h : stepFetcher client r i = some r1) :
    r1.pc = r.pc ∧ r1.containers = r.containers ∧ r1.eventGenerator = r.eventGenerator ∧
    r1.goroutines.map Export.container = r.goroutines.map Export.container ∧
    callsOf Tid.main r1.calls = callsOf Tid.main r.calls ∧ r.goroutines ≠ [] := by
  unfold stepFetcher at h
  cases hgi : r.goroutines[i]? with
  | none => simp [hgi] at h
  | some g =>
    have hne : r.goroutines ≠ [] := by
      intro h0
      rw [h0] at hgi
      simp at hgi
    cases hfe : g.fetcher with
    | sending s => simp [hgi, hfe] at h
    | finished => simp [hgi, hfe] at h
    | start =>
      cases hst : client.Stats g.statsOptions with
      | some s =>
        simp only [hgi, hfe, hst, Option.some.injEq] at h
        subst h
        exact ⟨rfl, rfl, rfl, map_container_set _ _ g _ hgi rfl,
          callsOf_snoc_other _ _ _ _ (by simp), hne⟩
      | none =>
        simp only [hgi, hfe, hst, Option.some.injEq] at h
        subst h
        exact ⟨rfl, rfl, rfl, map_container_set _ _ g _ hgi rfl,
          callsOf_snoc_other _ _ _ _ (by simp), hne⟩

theorem stepPublisher_frame (m : Methods) (r r1 : Round) (i : Nat)
    (h : stepPublisher m r i = some r1) :
    r1.pc = r.pc ∧ r1.containers = r.containers ∧
    r1.goroutines.map Export.container = r.goroutines.map Export.container ∧
    callsOf Tid.main r1.calls = callsOf Tid.main r.calls ∧ r.goroutines ≠ [] := by
  unfold stepPublisher at h
  cases hgi : r.goroutines[i]? with
  | none => simp [hgi] at h
  | some g =>
    have hne : r.goroutines ≠ [] := by
      intro h0
      rw [h0] at hgi
      simp at hgi
    cases hpu : g.publisher with
    | finished st events => simp [hgi, hpu] at h
    | waiting =>
      cases hfe : g.fetcher with
      | sending s =>
        simp only [hgi, hpu, hfe, Option.some.injEq] at h
        subst h
        exact ⟨rfl, rfl, map_container_set _ _ g _ hgi rfl, rfl, hne⟩
      | start =>
        by_cases hcl : g.closed = true
        · simp only [hgi, hpu, hfe, hcl, if_true, Option.some.injEq] at h
          subst h
          exact ⟨rfl, rfl, map_container_set _ _ g _ hgi rfl, rfl, hne⟩
        · simp [hgi, hpu, hfe, hcl] at h
      | finished =>
        by_cases hcl : g.closed = true
        · simp only [hgi, hpu, hfe, hcl, if_true, Option.some.injEq] at h
          subst h
          exact ⟨rfl, rfl, map_container_set _ _ g _ hgi rfl, rfl, hne⟩
        · simp [hgi, hpu, hfe, hcl] at h
    | building st events =>
      by_cases hlt : events.length < 5
      · simp only [hgi, hpu, hlt, if_true, Option.some.injEq] at h
        subst h
        exact ⟨rfl, rfl, map_container_set _ _ g _ hgi rfl,
          callsOf_snoc_other _ _ _ _ (by simp), hne⟩
      · simp only [hgi, hpu, hlt, if_false, Option.some.injEq] at h
        subst h
        exact ⟨rfl, rfl, map_container_set _ _ g _ hgi rfl,
          callsOf_snoc_other _ _ _ _ (by simp), hne⟩

theorem MainInv_frame (client : DockerClient) (r r1 : Round) (hI : MainInv client r)
    (hpc : r1.pc = r.pc) (hcs : r1.containers = r.containers)
    (hgs : r1.goroutines.map Export.container = r.goroutines.map Export.container)
    (hcalls : callsOf Tid.main r1.calls = callsOf Tid.main r.calls) (hne : r.goroutines ≠ []) :
    MainInv client r1 := by
  unfold MainInv at hI ⊢
  rw [hpc]
  cases hp : r.pc with
  | start =>
    rw [hp] at hI
    exact absurd hI.1 hne
  | loop rest =>
    rw [hp] at hI
    simp only at hI ⊢
    rw [hcs, hgs, hcalls]
    exact hI
  | clean =>
    rw [hp] at hI
    simp only at hI ⊢
    rw [hcs, hgs, hcalls]
    rcases hI with ⟨h1, h2 | h2⟩
    · exact ⟨h1, Or.inl h2⟩
    · exact absurd h2.2.1 hne
  | returned =>
    rw [hp] at hI
    simp only at hI ⊢
    rw [hcs, hgs, hcalls]
    rcases hI with ⟨h1, h2 | h2⟩
    · exact ⟨h1, Or.inl h2⟩
    · exact absurd h2.2.1 hne

theorem MainInv_stepMain (m : Methods) (client : DockerClient) (r r1 : Round)
    (hI : MainInv client r) (h : stepMain m client r = some r1) : MainInv client r1 := by
  unfold stepMain at h
  unfold MainInv at hI
  cases hp : r.pc with
  | start =>
    rw [hp] at hI
    simp only [hp] at h
    cases herr : client.ListContainers.2 with
    | none =>
      simp only [herr, Option.some.injEq] at h
      subst h
      simp only [MainInv]
      exact ⟨herr, trivial, [], by simp, by simp [hI.1], by simp [hI.2, callsOf_cons, callsOf_nil]⟩
    | some err =>
      simp only [herr, Option.some.injEq] at h
      subst h
      simp only [MainInv]
      exact ⟨trivial, Or.inr ⟨by simp [herr], hI.1, by simp [hI.2]⟩⟩
  | loop rest =>
    rw [hp] at hI
    obtain ⟨herr, hcs, exported, hsplit, hmap, hcalls⟩ := hI
    cases rest with
    | nil =>
      simp only [hp, Option.some.injEq] at h
      subst h
      simp only [MainInv]
      refine ⟨hcs, Or.inl ⟨herr, ?_, ?_⟩⟩
      · rw [hmap, hsplit, List.append_nil]
      · rw [hcalls, hsplit, List.append_nil]
    | cons c rest =>
      simp only [hp, Option.some.injEq] at h
      subst h
      simp only [MainInv]
      refine ⟨herr, hcs, exported ++ [c], by simp [hsplit], ?_, ?_⟩
      · simp [hmap, exportContainerStats]
      · simp [callsOf_snoc_same, hcalls]
  | clean =>
    rw [hp] at hI
    simp only [hp, Option.some.injEq] at h
    subst h
    simp only [MainInv]
    obtain ⟨hcs, h2 | h2⟩ := hI
    · refine ⟨hcs, Or.inl ⟨h2.1, h2.2.1, ?_⟩⟩
      rw [callsOf_snoc_same, h2.2.2, hcs]
    · refine ⟨hcs, Or.inr ⟨h2.1, h2.2.1, ?_⟩⟩
      rw [h2.2.2, hcs]
      rfl
  | returned =>
    simp [hp] at h

theorem MainInv_step (m : Methods) (client : DockerClient) (r : Round) (t : Tid) (r1 : Round)
    (hI : MainInv client r) (h : step m client r t = some r1) : MainInv client r1 := by
  cases t with
  | main => exact MainInv_stepMain m client r r1 hI h
  | fetcher i =>
    obtain ⟨h1, h2, -, h3, h4, h5⟩ := stepFetcher_frame client r r1 i h
    exact MainInv_frame client r r1 hI h1 h2 h3 h4 h5
  | publisher i =>
    obtain ⟨h1, h2, h3, h4, h5⟩ := stepPublisher_frame m r r1 i h
    exact MainInv_frame client r r1 hI h1 h2 h3 h4 h5

theorem MainInv_enter (client : DockerClient) (g : EventGenerator) : MainInv client (enter g) :=
  ⟨rfl, rfl⟩

/-- Both invariants hold in every state a round reaches. -/
theorem reach_inv (m : Methods) (client : DockerClient) (g : EventGenerator) (sched : List Tid)
    (r : Round) (h : run m client (enter g) sched = some r) :
    MainInv client r ∧ GoInv m client r :=
  run_invariant m client (fun r => MainInv client r ∧ GoInv m client r)
    (fun r t r1 hP hs => ⟨MainInv_step m client r t r1 hP.1 hs, GoInv_step m client r t r1 hP.2 hs⟩)
    sched (enter g) r ⟨MainInv_enter client g, GoInv_enter m client g⟩ h

/-! ## The caller of `RunOneTime` alone -/

theorem run_mainOnly_loop (m : Methods) (client : DockerClient) :
    ∀ (rest containers : List APIContainers) (gs : List Export) (g : EventGenerator)
      (calls : List (Tid × Call)),
      run m client ⟨Pc.loop rest, containers, gs, g, calls⟩ (mainOnly (rest.length + 2)) =
        some ⟨Pc.returned, containers, gs ++ rest.map exportContainerStats,
          m.cleanOldStats g containers,
          calls ++ rest.map (fun c => (Tid.main, Call.exportContainerStats c)) ++
            [(Tid.main, Call.cleanOldStats containers)]⟩ := by
  intro rest
  induction rest with
  | nil =>
    intro containers gs g calls
    simp [mainOnly, List.replicate, run, step, stepMain]
  | cons c rest ih =>
    intro containers gs g calls
    have h := ih containers (gs ++ [exportContainerStats c]) g
      (calls ++ [(Tid.main, Call.exportContainerStats c)])
    simp only [mainOnly, List.length_cons, List.replicate_succ, run, step, stepMain] at h ⊢
    rw [h]
    simp

theorem run_mainOnly_ok (m : Methods) (client : DockerClient) (g : EventGenerator)
    (hok : client.ListContainers.2 = none) :
    run m client (enter g) (mainOnly (client.ListContainers.1.length + 3)) =
      some ⟨Pc.returned, client.ListContainers.1,
        client.ListContainers.1.map exportContainerStats,
        m.cleanOldStats g client.ListContainers.1,
        (Tid.main, Call.ListContainers) ::
          client.ListContainers.1.map (fun c => (Tid.main, Call.exportContainerStats c)) ++
          [(Tid.main, Call.cleanOldStats client.ListContainers.1)]⟩ := by
  have h := run_mainOnly_loop m client client.ListContainers.1 client.ListContainers.1 [] g
    [(Tid.main, Call.ListContainers)]
  simp only [mainOnly, List.replicate_succ, run, step, stepMain, enter, hok] at h ⊢
  simpa using h

theorem run_mainOnly_failed (m : Methods) (client : DockerClient) (g : EventGenerator)
    (err : String) (herr : client.ListContainers.2 = some err) :
    run m client (enter g) (mainOnly 2) =
      some ⟨Pc.returned, client.ListContainers.1, [], m.cleanOldStats g client.ListContainers.1,
        [(Tid.main, Call.ListContainers), (Tid.main, Call.logErr),
         (Tid.main, Call.cleanOldStats client.ListContainers.1)]⟩ := by
  simp [mainOnly, List.replicate, run, step, stepMain, enter, herr]

/-! ## Who makes which call -/

theorem mem_callsOf (t : Tid) (c : Call) (calls : List (Tid × Call)) :
    c ∈ callsOf t calls ↔ (t, c) ∈ calls := by
  simp only [callsOf, List.mem_map, List.mem_filter, decide_eq_true_eq]
  constructor
  · rintro ⟨⟨u, d⟩, ⟨hmem, hu⟩, hd⟩
    simp only at hu hd
    subst hu hd
    exact hmem
  · intro h
    exact ⟨(t, c), ⟨h, rfl⟩, rfl⟩

theorem builderCall_cases (k : Nat) (c : APIContainers) (st : Option Stats) :
    builderCall k c st = Call.getContainerEvent c st ∨ builderCall k c st = Call.getCpuEvent c st ∨
    builderCall k c st = Call.getMemoryEvent c st ∨ builderCall k c st = Call.getNetworkEvent c st ∨
    builderCall k c st = Call.getBlkioEvent c st := by
  match k with
  | 0 => simp [builderCall]
  | 1 => simp [builderCall]
  | 2 => simp [builderCall]
  | 3 => simp [builderCall]
  | n + 4 => simp [builderCall]

theorem mem_builderCalls (n : Nat) (c : APIContainers) (st : Option Stats) (x : Call)
    (h : x ∈ builderCalls n c st) : ∃ k, x = builderCall k c st := by
  simp only [builderCalls, List.mem_map, List.mem_range] at h
  obtain ⟨k, -, hk⟩ := h
  exact ⟨k, hk.symm⟩

/-- In a state that satisfies the invariant, a call in the trace was made by the caller, or
it is the one `Stats` call of a fetching goroutine that has run, or a builder call or the
`PublishEvents` call of a publishing goroutine. -/
theorem call_owner (m : Methods) (client : DockerClient) (r : Round) (hG : GoInv m client r)
    (t : Tid) (c : Call) (hmem : (t, c) ∈ r.calls) :
    t = Tid.main ∨
    (∃ i e, t = Tid.fetcher i ∧ r.goroutines[i]? = some e ∧ c = Call.Stats e.statsOptions ∧
      callsOf (Tid.fetcher i) r.calls = [Call.Stats e.statsOptions]) ∨
    (∃ i e, t = Tid.publisher i ∧ r.goroutines[i]? = some e ∧
      ((∃ k st, c = builderCall k e.container st) ∨
       (∃ st events, e.publisher = Publisher.finished st events ∧ c = Call.PublishEvents events))) := by
  have hc := (mem_callsOf t c r.calls).2 hmem
  cases t with
  | main => exact Or.inl rfl
  | fetcher i =>
    refine Or.inr (Or.inl ?_)
    cases hgi : r.goroutines[i]? with
    | none =>
      have hlen : r.goroutines.length ≤ i := by
        by_contra hlt
        rw [List.getElem?_eq_getElem (Nat.lt_of_not_le hlt)] at hgi
        cases hgi
      rw [(hG.2 i hlen).1] at hc
      simp at hc
    | some e =>
      obtain ⟨-, hf, -⟩ := hG.1 i e hgi
      rw [hf] at hc
      cases hfe : e.fetcher with
      | start => simp [fetcherCalls, hfe] at hc
      | sending s =>
        simp only [fetcherCalls, hfe, List.mem_singleton] at hc
        exact ⟨i, e, rfl, hgi, hc, by rw [hf]; simp [fetcherCalls, hfe]⟩
      | finished =>
        simp only [fetcherCalls, hfe, List.mem_singleton] at hc
        exact ⟨i, e, rfl, hgi, hc, by rw [hf]; simp [fetcherCalls, hfe]⟩
  | publisher i =>
    refine Or.inr (Or.inr ?_)
    cases hgi : r.goroutines[i]? with
    | none =>
      have hlen : r.goroutines.length ≤ i := by
        by_contra hlt
        rw [List.getElem?_eq_getElem (Nat.lt_of_not_le hlt)] at hgi
        cases hgi
      rw [(hG.2 i hlen).2] at hc
      simp at hc
    | some e =>
      obtain ⟨-, -, hp⟩ := hG.1 i e hgi
      rw [hp] at hc
      refine ⟨i, e, rfl, hgi, ?_⟩
      cases hpu : e.publisher with
      | waiting => simp [publisherCalls, hpu] at hc
      | building st events =>
        simp only [publisherCalls, hpu] at hc
        obtain ⟨k, hk⟩ := mem_builderCalls _ _ _ _ hc
        exact Or.inl ⟨k, st, hk⟩
      | finished st events =>
        simp only [publisherCalls, hpu, List.mem_append, List.mem_singleton] at hc
        rcases hc with hc | hc
        · obtain ⟨k, hk⟩ := mem_builderCalls _ _ _ _ hc
          exact Or.inl ⟨k, st, hk⟩
        · exact Or.inr ⟨st, events, rfl, hc⟩

/-! ## The cleanup call -/

/-- C5: in every execution of a round whose listing succeeds, once `RunOneTime` has
returned its caller has made exactly these calls, in this order: the listing, one
`exportContainerStats` per listed container in listing order, and then one `cleanOldStats`
with exactly the listing of this round; no goroutine ever calls `cleanOldStats`. And
`RunOneTime` does return: its caller alone reaches the return in `n + 3` steps. -/
theorem cleanOldStats_once_after_loop (m : Methods) (client : DockerClient) (g : EventGenerator)
    (sched : List Tid) (r : Round) (hok : client.ListContainers.2 = none)
    (h : run m client (enter g) sched = some r) (hret : r.pc = Pc.returned) :
    callsOf Tid.main r.calls =
      Call.ListContainers :: client.ListContainers.1.map Call.exportContainerStats ++
        [Call.cleanOldStats client.ListContainers.1] ∧
    (∀ t cs, (t, Call.cleanOldStats cs) ∈ r.calls → t = Tid.main ∧ cs = client.ListContainers.1) ∧
    List.count (Call.cleanOldStats client.ListContainers.1) (callsOf Tid.main r.calls) = 1 ∧
    (∃ r1, run m client (enter g) (mainOnly (client.ListContainers.1.length + 3)) = some r1 ∧
      r1.pc = Pc.returned) := by
  obtain ⟨hM, hG⟩ := reach_inv m client g sched r h
  unfold MainInv at hM
  rw [hret] at hM
  obtain ⟨-, hM | hM⟩ := hM
  swap
  · exact absurd hok hM.1
  obtain ⟨-, -, hcalls⟩ := hM
  have hmain : ∀ t cs, (t, Call.cleanOldStats cs) ∈ r.calls → t = Tid.main := by
    intro t cs hmem
    rcases call_owner m client r hG t _ hmem with h1 | ⟨i, e, -, -, h1, -⟩ | ⟨i, e, -, -, h1 | h1⟩
    · exact h1
    · cases h1
    · obtain ⟨k, st, hk⟩ := h1
      rcases builderCall_cases k e.container st with h2 | h2 | h2 | h2 | h2 <;>
        rw [h2] at hk <;> cases hk
    · obtain ⟨st, events, -, hk⟩ := h1
      cases hk
  refine ⟨hcalls, ?_, ?_, ?_⟩
  · intro t cs hmem
    have ht := hmain t cs hmem
    subst ht
    refine ⟨rfl, ?_⟩
    have hc := (mem_callsOf Tid.main _ r.calls).2 hmem
    rw [hcalls] at hc
    simp at hc
    exact hc
  · rw [hcalls]
    simp [List.count_cons, List.count_append, List.count_eq_zero]
  · exact ⟨_, run_mainOnly_ok m client g hok, rfl⟩


/-- C5 at the round of `clientA` under `scheduleA`. -/
theorem cleanOldStats_once_after_loop_witness :
    clientA.ListContainers.2 = none ∧
    run specMethods clientA (enter storeA) scheduleA = some roundA ∧
    roundA.pc = Pc.returned ∧
    callsOf Tid.main roundA.calls =
      [Call.ListContainers, Call.exportContainerStats containerA, Call.cleanOldStats [containerA]] :=
  ⟨rfl, by decide, rfl,
   (cleanOldStats_once_after_loop specMethods clientA storeA scheduleA roundA rfl (by decide) rfl).1⟩

/-! ## The goroutines are not joined -/

/-- C10 as stated fails. When only the caller moves, `RunOneTime` returns while neither
goroutine of the export has finished. And under the first nine steps of `scheduleA` the
cleanup pass runs after the publishing goroutine has called three builders and before it
calls `getNetworkEvent` and `getBlkioEvent`, which read and update the store. -/
theorem RunOneTime_returns_early_counterexample :
    (run specMethods clientA (enter storeA) (mainOnly 4)).map
        (fun r => (r.pc, r.goroutines.map Export.resolved)) = some (Pc.returned, [false]) ∧
    (run specMethods clientA (enter storeA) (scheduleA.take 9)).map
        (fun r => (r.pc, r.goroutines.map Export.resolved, r.calls.drop 3)) =
      some (Pc.returned, [false],
        [(Tid.publisher 0, Call.getContainerEvent containerA (some snapshotA)),
         (Tid.publisher 0, Call.getCpuEvent containerA (some snapshotA)),
         (Tid.publisher 0, Call.getMemoryEvent containerA (some snapshotA)),
         (Tid.main, Call.cleanOldStats [containerA])]) ∧
    (run specMethods clientA (enter storeA) scheduleA).map (fun r => r.calls.drop 6) =
      some [(Tid.main, Call.cleanOldStats [containerA]),
            (Tid.publisher 0, Call.getNetworkEvent containerA (some snapshotA)),
            (Tid.publisher 0, Call.getBlkioEvent containerA (some snapshotA)),
            (Tid.publisher 0, Call.PublishEvents eventsA)] := by
  decide

/-- C10, amended: `RunOneTime` starts the two goroutines of every listed container and
does not wait for them. In every execution, when it has returned, the goroutines of all
listed containers have been started, in listing order; they need not have finished: the
caller alone runs the round to its return, cleanup pass included, with no goroutine
having taken a step. -/
theorem RunOneTime_does_not_join (m : Methods) (client : DockerClient) (g : EventGenerator)
    (sched : List Tid) (r : Round) (hok : client.ListContainers.2 = none)
    (h : run m client (enter g) sched = some r) (hret : r.pc = Pc.returned) :
    r.goroutines.map Export.container = client.ListContainers.1 ∧
    run m client (enter g) (mainOnly (client.ListContainers.1.length + 3)) =
      some ⟨Pc.returned, client.ListContainers.1,
        client.ListContainers.1.map exportContainerStats,
        m.cleanOldStats g client.ListContainers.1,
        (Tid.main, Call.ListContainers) ::
          client.ListContainers.1.map (fun c => (Tid.main, Call.exportContainerStats c)) ++
          [(Tid.main, Call.cleanOldStats client.ListContainers.1)]⟩ := by
  obtain ⟨hM, -⟩ := reach_inv m client g sched r h
  unfold MainInv at hM
  rw [hret] at hM
  obtain ⟨-, hM | hM⟩ := hM
  · exact ⟨hM.2.1, run_mainOnly_ok m client g hok⟩
  · exact absurd hok hM.1

/-- The amended C10 at the round of `clientA` in which only the caller moves. -/
theorem RunOneTime_does_not_join_witness :
    clientA.ListContainers.2 = none ∧
    run specMethods clientA (enter storeA) (mainOnly 4) = some roundMainOnly ∧
    roundMainOnly.pc = Pc.returned ∧
    roundMainOnly.goroutines.map Export.container = [containerA] :=
  ⟨rfl, by decide, rfl,
   (RunOneTime_does_not_join specMethods clientA storeA (mainOnly 4) roundMainOnly rfl
      (by decide) rfl).1⟩

/-! ## A round whose listing fails -/

theorem failed_listing_reach (m : Methods) (client : DockerClient) (g : EventGenerator)
    (err : String) (herr : client.ListContainers.2 = some err) (sched : List Tid) (r : Round)
    (h : run m client (enter g) sched = some r) :
    r = enter g ∨
    r = ⟨Pc.clean, client.ListContainers.1, [], g,
          [(Tid.main, Call.ListContainers), (Tid.main, Call.logErr)]⟩ ∨
    r = ⟨Pc.returned, client.ListContainers.1, [], m.cleanOldStats g client.ListContainers.1,
          [(Tid.main, Call.ListContainers), (Tid.main, Call.logErr),
           (Tid.main, Call.cleanOldStats client.ListContainers.1)]⟩ := by
  refine run_invariant m client
    (fun r => r = enter g ∨
      r = ⟨Pc.clean, client.ListContainers.1, [], g,
            [(Tid.main, Call.ListContainers), (Tid.main, Call.logErr)]⟩ ∨
      r = ⟨Pc.returned, client.ListContainers.1, [], m.cleanOldStats g client.ListContainers.1,
            [(Tid.main, Call.ListContainers), (Tid.main, Call.logErr),
             (Tid.main, Call.cleanOldStats client.ListContainers.1)]⟩)
    ?_ sched (enter g) r (Or.inl rfl) h
  intro r t r1 hP hs
  rcases hP with hP | hP | hP <;> subst hP <;> cases t <;>
    simp [step, stepMain, stepFetcher, stepPublisher, enter, herr] at hs <;> simp [← hs]

/-- C2 as stated fails: in the round of `clientNoList`, whose listing fails, `RunOneTime`
still calls `cleanOldStats`, with the nil slice of the failed listing, and the Counter
Store, which held an entry for `a`, is left empty. -/
theorem failed_listing_cleans_store_counterexample :
    clientNoList.ListContainers.2 = some "cannot connect" ∧
    run specMethods clientNoList (enter storeA) (mainOnly 2) = some roundNoList ∧
    (Tid.main, Call.cleanOldStats []) ∈ roundNoList.calls ∧
    roundNoList.eventGenerator ≠ (enter storeA).eventGenerator := by
  decide

/-- C2, amended: in a round whose listing fails `RunOneTime` starts no goroutine, so no
stats snapshot is requested, no builder is called and no event is published: its caller
makes exactly three calls, the listing, the error log and one `cleanOldStats` with the
slice the failed listing returned; the event generator is untouched until that cleanup
call and is its result afterwards. `RunOneTime` does return, after two steps of its
caller. -/
theorem failed_listing_round (m : Methods) (client : DockerClient) (g : EventGenerator)
    (err : String) (sched : List Tid) (r : Round) (herr : client.ListContainers.2 = some err)
    (h : run m client (enter g) sched = some r) :
    r.goroutines = [] ∧
    (∀ t c, (t, c) ∈ r.calls → t = Tid.main ∧
      (c = Call.ListContainers ∨ c = Call.logErr ∨ c = Call.cleanOldStats client.ListContainers.1)) ∧
    (r.pc = Pc.returned ∧
        r.calls = [(Tid.main, Call.ListContainers), (Tid.main, Call.logErr),
                   (Tid.main, Call.cleanOldStats client.ListContainers.1)] ∧
        r.eventGenerator = m.cleanOldStats g client.ListContainers.1 ∨
      r.pc ≠ Pc.returned ∧ r.eventGenerator = g) ∧
    run m client (enter g) (mainOnly 2) =
      some ⟨Pc.returned, client.ListContainers.1, [], m.cleanOldStats g client.ListContainers.1,
        [(Tid.main, Call.ListContainers), (Tid.main, Call.logErr),
         (Tid.main, Call.cleanOldStats client.ListContainers.1)]⟩ := by
  refine ⟨?_, ?_, ?_, run_mainOnly_failed m client g err herr⟩
  · rcases failed_listing_reach m client g err herr sched r h with hr | hr | hr <;> subst hr <;> rfl
  · intro t c hmem
    rcases failed_listing_reach m client g err herr sched r h with hr | hr | hr <;> subst hr <;>
      simp [enter] at hmem
    · rcases hmem with ⟨h1, h2⟩ | ⟨h1, h2⟩ <;> subst h1 h2 <;> simp
    · rcases hmem with ⟨h1, h2⟩ | ⟨h1, h2⟩ | ⟨h1, h2⟩ <;> subst h1 h2 <;> simp
  · rcases failed_listing_reach m client g err herr sched r h with hr | hr | hr <;> subst hr
    · exact Or.inr ⟨by simp [enter], rfl⟩
    · exact Or.inr ⟨by simp, rfl⟩
    · exact Or.inl ⟨rfl, rfl, rfl⟩

/-- The amended C2 at the round of `clientNoList`. -/
theorem failed_listing_round_witness :
    clientNoList.ListContainers.2 = some "cannot connect" ∧
    run specMethods clientNoList (enter storeA) (mainOnly 2) = some roundNoList ∧
    roundNoList.goroutines = [] :=
  ⟨rfl, by decide,
   (failed_listing_round specMethods clientNoList storeA "cannot connect" (mainOnly 2) roundNoList
      rfl (by decide)).1⟩

/-! ## The stats requests -/

theorem getElem?_some_lt {α : Type} (l : List α) (i : Nat) (a : α) (h : l[i]? = some a) :
    i < l.length := by
  by_contra hge
  rw [List.getElem?_eq_none (Nat.le_of_not_lt hge)] at h
  cases h

theorem map_statsOptions (m : Methods) (client : DockerClient) (r : Round)
    (hG : GoInv m client r) :
    r.goroutines.map Export.statsOptions = (r.goroutines.map Export.container).map statsOptions := by
  rw [List.map_map]
  apply List.map_congr_left
  intro e he
  obtain ⟨i, hi⟩ := List.mem_iff_getElem?.1 he
  exact (hG.1 i e hi).1.1

theorem mem_statsRequests (o : StatsOptions) (calls : List (Tid × Call)) :
    o ∈ statsRequests calls ↔ ∃ t, (t, Call.Stats o) ∈ calls := by
  simp only [statsRequests, List.mem_filterMap]
  constructor
  · rintro ⟨⟨t, c⟩, hmem, hc⟩
    cases c <;> simp at hc
    subst hc
    exact ⟨t, hmem⟩
  · rintro ⟨t, hmem⟩
    exact ⟨(t, Call.Stats o), hmem, rfl⟩

/-- C4 as stated fails: the requests are not issued in listing order, and `RunOneTime` may
return before any is issued. In the round of `clientAB`, which lists `a` and then `b`,
under `scheduleBA` the goroutines are started for `a` and then `b`, but the `Stats`
requests of the trace are those of `b` and then `a` when `RunOneTime` has returned; and
when only the caller moves, `RunOneTime` returns with no request made. -/
theorem stats_requests_out_of_order_counterexample :
    clientAB.ListContainers = ([containerA, containerB], none) ∧
    run specMethods clientAB (enter storeA) scheduleBA = some roundBA ∧
    roundBA.pc = Pc.returned ∧
    statsRequests roundBA.calls = [⟨"b", false, -1⟩, ⟨"a", false, -1⟩] ∧
    statsRequests roundBA.calls ≠ clientAB.ListContainers.1.map statsOptions ∧
    (run specMethods clientAB (enter storeA) (mainOnly 5)).map
        (fun r => (r.pc, statsRequests r.calls)) = some (Pc.returned, []) := by
  decide

/-- C4, amended: in every execution of a round whose listing of `n` containers succeeds,
once `RunOneTime` has returned it has started exactly `n` request goroutines, one per
listed container and in listing order, each with options that carry the id of its
container and `Stream = false`. The requests themselves are issued by these goroutines,
in an order the scheduler decides and possibly after the return: every `Stats` call in
the trace is the request of a listed container, made once, by the goroutine started for
that container, so no request is made for an id outside the listing; and a request whose
goroutine has not run yet can be made: its goroutine can step and then has called `Stats`
exactly once. -/
theorem stats_requests_started_in_listing_order (m : Methods) (client : DockerClient) (g : EventGenerator)
    (sched : List Tid) (r : Round) (hok : client.ListContainers.2 = none)
    (h : run m client (enter g) sched = some r) (hret : r.pc = Pc.returned) :
    r.goroutines.map Export.statsOptions =
      client.ListContainers.1.map (fun c => (⟨c.ID, false, -1⟩ : StatsOptions)) ∧
    r.goroutines.length = client.ListContainers.1.length ∧
    (∀ t o, (t, Call.Stats o) ∈ r.calls →
      ∃ i c, t = Tid.fetcher i ∧ client.ListContainers.1[i]? = some c ∧
        o = ⟨c.ID, false, -1⟩ ∧ callsOf (Tid.fetcher i) r.calls = [Call.Stats o]) ∧
    (∀ i e, r.goroutines[i]? = some e → e.fetcher = Fetcher.start →
      ∃ r1, step m client r (Tid.fetcher i) = some r1 ∧
        callsOf (Tid.fetcher i) r1.calls = [Call.Stats e.statsOptions]) ∧
    (∀ o ∈ statsRequests r.calls, ∃ c ∈ client.ListContainers.1, o = ⟨c.ID, false, -1⟩) := by
  obtain ⟨hM, hG⟩ := reach_inv m client g sched r h
  unfold MainInv at hM
  rw [hret] at hM
  obtain ⟨-, hM | hM⟩ := hM
  swap
  · exact absurd hok hM.1
  obtain ⟨-, hmap, -⟩ := hM
  have hopts := map_statsOptions m client r hG
  rw [hmap] at hopts
  have hthird : ∀ t o, (t, Call.Stats o) ∈ r.calls →
      ∃ i c, t = Tid.fetcher i ∧ client.ListContainers.1[i]? = some c ∧
        o = ⟨c.ID, false, -1⟩ ∧ callsOf (Tid.fetcher i) r.calls = [Call.Stats o] := by
    intro t o hmem
    rcases call_owner m client r hG t _ hmem with h1 | ⟨i, e, h1, h2, h3, h4⟩ | ⟨i, e, -, -, h1 | h1⟩
    · subst h1
      have hc := (mem_callsOf Tid.main _ r.calls).2 hmem
      obtain ⟨hM2, -⟩ := reach_inv m client g sched r h
      unfold MainInv at hM2
      rw [hret] at hM2
      obtain ⟨-, hM2 | hM2⟩ := hM2
      · rw [hM2.2.2] at hc
        simp at hc
      · exact absurd hok hM2.1
    · cases h3
      refine ⟨i, e.container, h1, ?_, (hG.1 i e h2).1.1, h4⟩
      rw [← hmap, List.getElem?_map, h2]
      rfl
    · obtain ⟨k, st, hk⟩ := h1
      rcases builderCall_cases k e.container st with h2 | h2 | h2 | h2 | h2 <;>
        rw [h2] at hk <;> cases hk
    · obtain ⟨st, events, -, hk⟩ := h1
      cases hk
  refine ⟨hopts, ?_, hthird, ?_, ?_⟩
  · rw [← hmap, List.length_map]
  · intro i e hgi hfe
    have hcalls : callsOf (Tid.fetcher i) r.calls = [] := by
      rw [(hG.1 i e hgi).2.1]
      simp [fetcherCalls, hfe]
    cases hst : client.Stats e.statsOptions with
    | some s =>
      refine ⟨_, by simp only [step, stepFetcher, hgi, hfe, hst]; rfl, ?_⟩
      simp [callsOf_snoc_same, hcalls]
    | none =>
      refine ⟨_, by simp only [step, stepFetcher, hgi, hfe, hst]; rfl, ?_⟩
      simp [callsOf_snoc_same, hcalls]
  · intro o ho
    obtain ⟨t, hmem⟩ := (mem_statsRequests o r.calls).1 ho
    obtain ⟨i, c, -, hc, ho2, -⟩ := hthird t o hmem
    exact ⟨c, List.mem_iff_getElem?.2 ⟨i, hc⟩, ho2⟩

/-- The amended C4 at the round of `clientAB` under `scheduleBA`: the request goroutines
are started for `a` and then `b`, whatever the order of the requests in the trace. -/
theorem stats_requests_started_in_listing_order_witness :
    clientAB.ListContainers.2 = none ∧
    run specMethods clientAB (enter storeA) scheduleBA = some roundBA ∧
    roundBA.pc = Pc.returned ∧
    roundBA.goroutines.map Export.statsOptions = [⟨"a", false, -1⟩, ⟨"b", false, -1⟩] :=
  ⟨rfl, by decide, rfl,
   (stats_requests_started_in_listing_order specMethods clientAB storeA scheduleBA roundBA rfl
      (by decide) rfl).1⟩

/-! ## The publishing goroutine -/

theorem run_append (m : Methods) (client : DockerClient) :
    ∀ (a b : List Tid) (r r1 r2 : Round), run m client r a = some r1 →
      run m client r1 b = some r2 → run m client r (a ++ b) = some r2 := by
  intro a
  induction a with
  | nil =>
    intro b r r1 r2 h1 h2
    simp only [run, Option.some.injEq] at h1
    subst h1
    exact h2
  | cons t rest ih =>
    intro b r r1 r2 h1 h2
    rw [List.cons_append]
    rw [run] at h1 ⊢
    cases hs : step m client r t with
    | none => simp [hs] at h1
    | some r3 =>
      simp only [hs] at h1 ⊢
      exact ih b r3 r1 r2 h1 h2

theorem run_cons_of_step (m : Methods) (client : DockerClient) (r r1 r2 : Round) (t : Tid)
    (rest : List Tid) (h1 : step m client r t = some r1) (h2 : run m client r1 rest = some r2) :
    run m client r (t :: rest) = some r2 := by
  rw [run, h1]
  exact h2

theorem builderCalls_five (c : APIContainers) (st : Option Stats) :
    builderCalls 5 c st =
      [Call.getContainerEvent c st, Call.getCpuEvent c st, Call.getMemoryEvent c st,
       Call.getNetworkEvent c st, Call.getBlkioEvent c st] := rfl

theorem Built_five (m : Methods) (c : APIContainers) (st : Option Stats) (events : List MapStr)
    (hlen : events.length = 5) (hb : Built m c st events) :
    ∃ g0 g1 g2 g3 g4, events =
      [(m.getContainerEvent g0 c st).1, (m.getCpuEvent g1 c st).1, (m.getMemoryEvent g2 c st).1,
       (m.getNetworkEvent g3 c st).1, (m.getBlkioEvent g4 c st).1] := by
  match events, hlen with
  | [e0, e1, e2, e3, e4], _ =>
    obtain ⟨g0, h0⟩ := hb 0 (by simp)
    obtain ⟨g1, h1⟩ := hb 1 (by simp)
    obtain ⟨g2, h2⟩ := hb 2 (by simp)
    obtain ⟨g3, h3⟩ := hb 3 (by simp)
    obtain ⟨g4, h4⟩ := hb 4 (by simp)
    simp [builder] at h0 h1 h2 h3 h4
    exact ⟨g0, g1, g2, g3, g4, by rw [h0, h1, h2, h3, h4]⟩

/-- A publishing goroutine that holds the received pointer runs to its end: it calls the
builders that are left, one per step, and then publishes. -/
theorem publisher_finishes (m : Methods) (client : DockerClient) (i : Nat) :
    ∀ (k : Nat) (r : Round) (e : Export) (st : Option Stats) (events : List MapStr),
      r.goroutines[i]? = some e → e.publisher = Publisher.building st events →
      events.length + k = 5 →
      ∃ r1 e1 events1, run m client r (List.replicate (k + 1) (Tid.publisher i)) = some r1 ∧
        r1.goroutines[i]? = some e1 ∧ e1.publisher = Publisher.finished st events1 := by
  intro k
  induction k with
  | zero =>
    intro r e st events hgi hpu hlen
    have hlt := getElem?_some_lt _ _ _ hgi
    have hn : ¬ events.length < 5 := by omega
    refine ⟨⟨r.pc, r.containers,
        r.goroutines.set i ⟨e.container, e.statsOptions, e.closed, e.fetcher,
          Publisher.finished st events⟩,
        r.eventGenerator, r.calls ++ [(Tid.publisher i, Call.PublishEvents events)]⟩,
      ⟨e.container, e.statsOptions, e.closed, e.fetcher, Publisher.finished st events⟩,
      events, ?_, ?_, rfl⟩
    · simp only [List.replicate, run, step, stepPublisher, hgi, hpu, hn, if_false]
    · simp [List.getElem?_set_self hlt]
  | succ k ih =>
    intro r e st events hgi hpu hlen
    have hlt := getElem?_some_lt _ _ _ hgi
    have hn : events.length < 5 := by omega
    obtain ⟨r1, e1, events1, h1, h2, h3⟩ := ih
      ⟨r.pc, r.containers,
        r.goroutines.set i ⟨e.container, e.statsOptions, e.closed, e.fetcher,
          Publisher.building st (events ++ [(builder m events.length r.eventGenerator e.container st).1])⟩,
        (builder m events.length r.eventGenerator e.container st).2,
        r.calls ++ [(Tid.publisher i, builderCall events.length e.container st)]⟩
      ⟨e.container, e.statsOptions, e.closed, e.fetcher,
        Publisher.building st (events ++ [(builder m events.length r.eventGenerator e.container st).1])⟩
      st (events ++ [(builder m events.length r.eventGenerator e.container st).1])
      (by simp [List.getElem?_set_self hlt]) rfl (by simp; omega)
    refine ⟨r1, e1, events1, ?_, h2, h3⟩
    rw [List.replicate_succ]
    simp only [run, step, stepPublisher, hgi, hpu, hn, if_true]
    exact h1

/-- The publishing goroutine of an export in a state that satisfies the invariant: what it
has called is read off its state, a `PublishEvents` call is there only when it has
finished, and whatever the client delivers for the request (a snapshot or nothing), some
schedule lets it finish. -/
theorem publisher_behaviour (m : Methods) (client : DockerClient) (r : Round) (i : Nat)
    (e : Export) (hG : GoInv m client r) (he : r.goroutines[i]? = some e) :
    (∀ events, Call.PublishEvents events ∈ callsOf (Tid.publisher i) r.calls →
      e.publisher = Publisher.finished (client.Stats e.statsOptions) events) ∧
    (∀ st events, e.publisher = Publisher.finished st events →
      st = client.Stats e.statsOptions ∧
      callsOf (Tid.publisher i) r.calls =
        [Call.getContainerEvent e.container st, Call.getCpuEvent e.container st,
         Call.getMemoryEvent e.container st, Call.getNetworkEvent e.container st,
         Call.getBlkioEvent e.container st, Call.PublishEvents events] ∧
      ∃ g0 g1 g2 g3 g4, events =
        [(m.getContainerEvent g0 e.container st).1, (m.getCpuEvent g1 e.container st).1,
         (m.getMemoryEvent g2 e.container st).1, (m.getNetworkEvent g3 e.container st).1,
         (m.getBlkioEvent g4 e.container st).1]) ∧
    (∃ sched1 r1 e1 events, run m client r sched1 = some r1 ∧ r1.goroutines[i]? = some e1 ∧
      e1.publisher = Publisher.finished (client.Stats e.statsOptions) events) := by
  obtain ⟨⟨hopt, hfet, hpub⟩, hfc, hpc⟩ := hG.1 i e he
  have hlt := getElem?_some_lt _ _ _ he
  refine ⟨?_, ?_, ?_⟩
  · intro events hmem
    rw [hpc] at hmem
    cases hpu : e.publisher with
    | waiting => simp [publisherCalls, hpu] at hmem
    | building st evs =>
      simp only [publisherCalls, hpu] at hmem
      obtain ⟨k, hk⟩ := mem_builderCalls _ _ _ _ hmem
      rcases builderCall_cases k e.container st with h2 | h2 | h2 | h2 | h2 <;>
        rw [h2] at hk <;> cases hk
    | finished st evs =>
      simp only [hpu] at hpub
      simp only [publisherCalls, hpu, List.mem_append, List.mem_singleton] at hmem
      rcases hmem with hmem | hmem
      · obtain ⟨k, hk⟩ := mem_builderCalls _ _ _ _ hmem
        rcases builderCall_cases k e.container st with h2 | h2 | h2 | h2 | h2 <;>
          rw [h2] at hk <;> cases hk
      · cases hmem
        rw [hpub.2.1]
  · intro st events hpu
    simp only [hpu] at hpub
    refine ⟨hpub.2.1, ?_, Built_five m _ _ _ hpub.2.2.1 hpub.2.2.2⟩
    rw [hpc]
    simp [publisherCalls, hpu, builderCalls_five]
  · cases hpu : e.publisher with
    | finished st evs =>
      simp only [hpu] at hpub
      exact ⟨[], r, e, evs, rfl, he, by rw [hpu, hpub.2.1]⟩
    | building st evs =>
      simp only [hpu] at hpub
      obtain ⟨r1, e1, events1, h1, h2, h3⟩ :=
        publisher_finishes m client i (5 - evs.length) r e st evs he hpu (by omega)
      exact ⟨_, r1, e1, events1, h1, h2, by rw [h3, hpub.2.1]⟩
    | waiting =>
      cases hfe : e.fetcher with
      | finished =>
        simp only [hfe] at hfet
        obtain ⟨r1, e1, events1, h1, h2, h3⟩ :=
          publisher_finishes m client i 5
            ⟨r.pc, r.containers,
              r.goroutines.set i ⟨e.container, e.statsOptions, true, Fetcher.finished,
                Publisher.building none []⟩,
              r.eventGenerator, r.calls⟩
            ⟨e.container, e.statsOptions, true, Fetcher.finished, Publisher.building none []⟩
            none [] (by simp [List.getElem?_set_self hlt]) rfl rfl
        refine ⟨Tid.publisher i :: List.replicate (5 + 1) (Tid.publisher i), r1, e1, events1,
          run_cons_of_step m client _ _ _ _ _ ?_ h1, h2, ?_⟩
        · simp only [step, stepPublisher, he, hpu, hfe, hfet.1, if_true]
        · rw [h3, hfet.2 hpu]
      | sending s =>
        simp only [hfe] at hfet
        obtain ⟨r1, e1, events1, h1, h2, h3⟩ :=
          publisher_finishes m client i 5
            ⟨r.pc, r.containers,
              r.goroutines.set i ⟨e.container, e.statsOptions, true, Fetcher.finished,
                Publisher.building (some s) []⟩,
              r.eventGenerator, r.calls⟩
            ⟨e.container, e.statsOptions, true, Fetcher.finished, Publisher.building (some s) []⟩
            (some s) [] (by simp [List.getElem?_set_self hlt]) rfl rfl
        refine ⟨Tid.publisher i :: List.replicate (5 + 1) (Tid.publisher i), r1, e1, events1,
          run_cons_of_step m client _ _ _ _ _ ?_ h1, h2, ?_⟩
        · simp only [step, stepPublisher, he, hpu, hfe]
        · rw [h3, hfet.2.2]
      | start =>
        simp only [hfe] at hfet
        cases hst : client.Stats e.statsOptions with
        | none =>
          have hs1 : step m client r (Tid.fetcher i) = some ⟨r.pc, r.containers,
              r.goroutines.set i ⟨e.container, e.statsOptions, true, Fetcher.finished,
                Publisher.waiting⟩,
              r.eventGenerator, r.calls ++ [(Tid.fetcher i, Call.Stats e.statsOptions)]⟩ := by
            simp only [step, stepFetcher, he, hpu, hfe, hst]
          have hs2 : step m client ⟨r.pc, r.containers,
              r.goroutines.set i ⟨e.container, e.statsOptions, true, Fetcher.finished,
                Publisher.waiting⟩,
              r.eventGenerator, r.calls ++ [(Tid.fetcher i, Call.Stats e.statsOptions)]⟩
              (Tid.publisher i) = some ⟨r.pc, r.containers,
                (r.goroutines.set i ⟨e.container, e.statsOptions, true, Fetcher.finished,
                    Publisher.waiting⟩).set i
                  ⟨e.container, e.statsOptions, true, Fetcher.finished,
                    Publisher.building (none) []⟩,
                r.eventGenerator, r.calls ++ [(Tid.fetcher i, Call.Stats e.statsOptions)]⟩ := by
            simp only [step, stepPublisher, List.getElem?_set_self hlt, if_true]
          obtain ⟨r1, e1, events1, h1, h2, h3⟩ :=
            publisher_finishes m client i 5
              ⟨r.pc, r.containers,
                (r.goroutines.set i ⟨e.container, e.statsOptions, true, Fetcher.finished,
                    Publisher.waiting⟩).set i
                  ⟨e.container, e.statsOptions, true, Fetcher.finished,
                    Publisher.building (none) []⟩,
                r.eventGenerator, r.calls ++ [(Tid.fetcher i, Call.Stats e.statsOptions)]⟩
              ⟨e.container, e.statsOptions, true, Fetcher.finished, Publisher.building (none) []⟩
              (none) [] (by simp [List.getElem?_set_self hlt]) rfl rfl
          exact ⟨Tid.fetcher i :: Tid.publisher i :: List.replicate (5 + 1) (Tid.publisher i),
            r1, e1, events1,
            run_cons_of_step m client _ _ _ _ _ hs1 (run_cons_of_step m client _ _ _ _ _ hs2 h1),
            h2, by rw [h3]⟩
        | some s =>
          have hs1 : step m client r (Tid.fetcher i) = some ⟨r.pc, r.containers,
              r.goroutines.set i ⟨e.container, e.statsOptions, e.closed, Fetcher.sending s,
                Publisher.waiting⟩,
              r.eventGenerator, r.calls ++ [(Tid.fetcher i, Call.Stats e.statsOptions)]⟩ := by
            simp only [step, stepFetcher, he, hpu, hfe, hst]
          have hs2 : step m client ⟨r.pc, r.containers,
              r.goroutines.set i ⟨e.container, e.statsOptions, e.closed, Fetcher.sending s,
                Publisher.waiting⟩,
              r.eventGenerator, r.calls ++ [(Tid.fetcher i, Call.Stats e.statsOptions)]⟩
              (Tid.publisher i) = some ⟨r.pc, r.containers,
                (r.goroutines.set i ⟨e.container, e.statsOptions, e.closed, Fetcher.sending s,
                    Publisher.waiting⟩).set i
                  ⟨e.container, e.statsOptions, true, Fetcher.finished,
                    Publisher.building (some s) []⟩,
                r.eventGenerator, r.calls ++ [(Tid.fetcher i, Call.Stats e.statsOptions)]⟩ := by
            simp only [step, stepPublisher, List.getElem?_set_self hlt]
          obtain ⟨r1, e1, events1, h1, h2, h3⟩ :=
            publisher_finishes m client i 5
              ⟨r.pc, r.containers,
                (r.goroutines.set i ⟨e.container, e.statsOptions, e.closed, Fetcher.sending s,
                    Publisher.waiting⟩).set i
                  ⟨e.container, e.statsOptions, true, Fetcher.finished,
                    Publisher.building (some s) []⟩,
                r.eventGenerator, r.calls ++ [(Tid.fetcher i, Call.Stats e.statsOptions)]⟩
              ⟨e.container, e.statsOptions, true, Fetcher.finished, Publisher.building (some s) []⟩
              (some s) [] (by simp [List.getElem?_set_self hlt]) rfl rfl
          exact ⟨Tid.fetcher i :: Tid.publisher i :: List.replicate (5 + 1) (Tid.publisher i),
            r1, e1, events1,
            run_cons_of_step m client _ _ _ _ _ hs1 (run_cons_of_step m client _ _ _ _ _ hs2 h1),
            h2, by rw [h3]⟩

/-- C3: in every execution of a round, for every export whose request is answered with a
snapshot `s`: the publishing goroutine calls `PublishEvents` only as its last act; when it
has finished it has made exactly six calls, the five builders in the order container
info, CPU, memory, network, blkio, each with the container of the export and the pointer
to `s`, and then one `PublishEvents` whose batch is exactly the five results in that
order; from every reachable state some schedule lets it finish, so the batch is
published; and the other goroutine of the export calls nothing but `Stats`. -/
theorem publisher_one_batch_of_five (m : Methods) (client : DockerClient) (g : EventGenerator)
    (sched : List Tid) (r : Round) (i : Nat) (e : Export) (s : Stats)
    (h : run m client (enter g) sched = some r) (he : r.goroutines[i]? = some e)
    (hs : client.Stats e.statsOptions = some s) :
    (∀ events, Call.PublishEvents events ∈ callsOf (Tid.publisher i) r.calls →
      e.publisher = Publisher.finished (some s) events) ∧
    (∀ st events, e.publisher = Publisher.finished st events →
      st = some s ∧
      callsOf (Tid.publisher i) r.calls =
        [Call.getContainerEvent e.container (some s), Call.getCpuEvent e.container (some s),
         Call.getMemoryEvent e.container (some s), Call.getNetworkEvent e.container (some s),
         Call.getBlkioEvent e.container (some s), Call.PublishEvents events] ∧
      ∃ g0 g1 g2 g3 g4, events =
        [(m.getContainerEvent g0 e.container (some s)).1, (m.getCpuEvent g1 e.container (some s)).1,
         (m.getMemoryEvent g2 e.container (some s)).1, (m.getNetworkEvent g3 e.container (some s)).1,
         (m.getBlkioEvent g4 e.container (some s)).1]) ∧
    (∃ sched1 r1 e1 events, run m client r sched1 = some r1 ∧ r1.goroutines[i]? = some e1 ∧
      e1.publisher = Publisher.finished (some s) events) ∧
    (∀ c ∈ callsOf (Tid.fetcher i) r.calls, c = Call.Stats e.statsOptions) := by
  obtain ⟨-, hG⟩ := reach_inv m client g sched r h
  obtain ⟨h1, h2, h3⟩ := publisher_behaviour m client r i e hG he
  rw [hs] at h1 h3
  refine ⟨h1, ?_, h3, ?_⟩
  · intro st events hpu
    obtain ⟨h4, h5, h6⟩ := h2 st events hpu
    rw [hs] at h4
    subst h4
    exact ⟨rfl, h5, h6⟩
  · intro c hc
    rw [(hG.1 i e he).2.1] at hc
    cases hfe : e.fetcher <;> simp [fetcherCalls, hfe] at hc <;> exact hc

/-- C3 at the round of `clientA` under `scheduleA`. -/
theorem publisher_one_batch_of_five_witness :
    run specMethods clientA (enter storeA) scheduleA = some roundA ∧
    roundA.goroutines[0]? = some ⟨containerA, ⟨"a", false, -1⟩, true, Fetcher.finished,
      Publisher.finished (some snapshotA) eventsA⟩ ∧
    clientA.Stats ⟨"a", false, -1⟩ = some snapshotA ∧
    callsOf (Tid.publisher 0) roundA.calls =
      [Call.getContainerEvent containerA (some snapshotA), Call.getCpuEvent containerA (some snapshotA),
       Call.getMemoryEvent containerA (some snapshotA), Call.getNetworkEvent containerA (some snapshotA),
       Call.getBlkioEvent containerA (some snapshotA), Call.PublishEvents eventsA] :=
  ⟨by decide, rfl, rfl,
   ((publisher_one_batch_of_five specMethods clientA storeA scheduleA roundA 0
      ⟨containerA, ⟨"a", false, -1⟩, true, Fetcher.finished,
        Publisher.finished (some snapshotA) eventsA⟩ snapshotA (by decide) rfl rfl).2.1
      (some snapshotA) eventsA rfl).2.1⟩

/-! ## A fetch that fails -/

/-- C1 fails on the code. For any container `c` whose stats fetch fails (the channel is
closed with nothing sent), the receive yields the nil pointer and the publishing
goroutine goes on as with a snapshot: it calls the five builders with the nil pointer and
then `PublishEvents` with the five results. -/
theorem absent_snapshot_is_built_and_published (m : Methods) (g : EventGenerator)
    (c : APIContainers) :
    (run m ⟨([c], none), fun _ => none⟩ (enter g)
        [Tid.main, Tid.main, Tid.fetcher 0, Tid.publisher 0, Tid.publisher 0, Tid.publisher 0,
         Tid.publisher 0, Tid.publisher 0, Tid.publisher 0, Tid.publisher 0]).map
      (fun r => r.calls) =
    some
      [(Tid.main, Call.ListContainers),
       (Tid.main, Call.exportContainerStats c),
       (Tid.fetcher 0, Call.Stats ⟨c.ID, false, -1⟩),
       (Tid.publisher 0, Call.getContainerEvent c none),
       (Tid.publisher 0, Call.getCpuEvent c none),
       (Tid.publisher 0, Call.getMemoryEvent c none),
       (Tid.publisher 0, Call.getNetworkEvent c none),
       (Tid.publisher 0, Call.getBlkioEvent c none),
       (Tid.publisher 0, Call.PublishEvents
          [(m.getContainerEvent g c none).1,
           (m.getCpuEvent (m.getContainerEvent g c none).2 c none).1,
           (m.getMemoryEvent (m.getCpuEvent (m.getContainerEvent g c none).2 c none).2 c none).1,
           (m.getNetworkEvent (m.getMemoryEvent (m.getCpuEvent (m.getContainerEvent g c none).2
              c none).2 c none).2 c none).1,
           (m.getBlkioEvent (m.getNetworkEvent (m.getMemoryEvent (m.getCpuEvent
              (m.getContainerEvent g c none).2 c none).2 c none).2 c none).2 c none).1])] := by
  rfl

end Beat
